import Mathlib

/-!
Verification of the AIVA python-service retrieval pipeline.

This file shallowly embeds the parts of the service that the claims are
about, translated from the Python sources:

* `app/services/enhanced_search.py`  — intent detection, BM25 merge,
  intent-aware score modifier, relevance-threshold gate, MMR diversity,
  reranking, and the search pipeline that composes them;
* `app/services/reranker.py`         — the simple / LLM / hybrid rerankers;
* `app/services/vector_store.py`     — cosine similarity, `store_document`;
* `app/services/semantic_cache.py`   — cosine similarity, cache lookup and
  cache write with their exception handling;
* `app/services/content_aware_chunker.py` — `chunk_text` error behaviour;
* `app/routes/documents.py`          — the async upload endpoint.

Modelling conventions:
* Python `str` is modelled as `List Char` (`Str`), so that all string
  operations compute inside the kernel;
* Python floats are modelled as exact rationals `ℚ` (vector norms, which
  need square roots, use `ℝ`);
* external collaborators (the embedding provider, the LLM scorer inside the
  LLM reranker, Redis failure behaviour, LangChain's recursive splitter)
  are universally quantified oracle parameters: the theorems hold for every
  behaviour of the collaborator;
* Python exceptions are modelled with `Except`.
-/

namespace Aiva

/-- Python `str` modelled as a list of characters. -/
abbrev Str := List Char

/-- Python `str.lower()`. -/
def lowerStr (s : Str) : Str := s.map Char.toLower

/-- Substring containment, Python `needle in hay` on strings. -/
def isSubstrOf : Str → Str → Bool
  | n, [] => n.isEmpty
  | n, h :: t => n.isPrefixOf (h :: t) || isSubstrOf n t

/-- Python `str.strip()` (whitespace from both ends). -/
def trimStr (s : Str) : Str :=
  ((s.dropWhile Char.isWhitespace).reverse.dropWhile Char.isWhitespace).reverse

/-- Helper for splitting a string at delimiter characters. -/
def splitPredAux (p : Char → Bool) (cur : Str) (acc : List Str) : Str → List Str
  | [] => (cur.reverse :: acc).reverse
  | c :: rest =>
    if p c then splitPredAux p [] (cur.reverse :: acc) rest
    else splitPredAux p (c :: cur) acc rest

/-- Split a string at the characters satisfying `p` (empty pieces kept,
as in a raw split; callers filter them out as the Python code does). -/
def splitPred (p : Char → Bool) (s : Str) : List Str := splitPredAux p [] [] s

/-- Python `max(a, b)` on floats. -/
def maxQ (a b : ℚ) : ℚ := if a ≤ b then b else a

/-- Python `min(a, b)` on floats. -/
def minQ (a b : ℚ) : ℚ := if a ≤ b then a else b

/-- `max(0.0, min(1.0, x))` from `enhanced_search.py` line 432. -/
def clamp01 (x : ℚ) : ℚ := maxQ 0 (minQ 1 x)

namespace EnhancedSearch

/-- One text search result as it flows through `EnhancedSearchService.search`:
the fields of the result dict that the modelled stages read or write. -/
structure SearchResult where
  chunk_id : Str
  content : Str
  score : ℚ
deriving DecidableEq

/-- The descending-by-`score` order the pipeline is supposed to maintain. -/
def scoreGE (a b : SearchResult) : Prop := b.score ≤ a.score

instance : DecidableRel scoreGE := fun a b => inferInstanceAs (Decidable (b.score ≤ a.score))

/-- Stable insertion into a descending list; `insertDesc r l` puts `r` before
the existing elements of equal score, matching Python's stable `list.sort`
(with `reverse=True`) when built by `sortDesc` below. -/
def insertDesc (r : SearchResult) : List SearchResult → List SearchResult
  | [] => [r]
  | x :: xs => if x.score ≤ r.score then r :: x :: xs else x :: insertDesc r xs

/-- Python `results.sort(key=lambda x: x.get("score", 0), reverse=True)`:
a stable descending sort by score. -/
def sortDesc (l : List SearchResult) : List SearchResult := l.foldr insertDesc []

-- ===================== IntentDetector (enhanced_search.py 38-173) ==========

/-- `QueryIntent` enum from `enhanced_search.py`. -/
inductive QueryIntent
  | create
  | find
  | explain
  | configure
  | troubleshoot
  | «list»
  | unknown
deriving DecidableEq

/-- `IntentMatch` dataclass from `enhanced_search.py`. -/
structure IntentMatch where
  intent : QueryIntent
  subject : Str
  confidence : ℚ

/-- `IntentDetector.WRONG_CONTEXT_KEYWORDS`. -/
def wrongContextKeywords : List Str :=
  ["against the".toList, "against a".toList, "against an".toList,
   "from the".toList, "from a".toList, "from an".toList,
   "on the".toList, "on a".toList, "on an".toList,
   "mentioned in".toList, "mentioned on".toList,
   "received".toList, "receiving".toList,
   "grn".toList, "goods receipt".toList,
   "existing".toList, "previous".toList,
   "check it against".toList, "checked against".toList]

/-- `IntentDetector.RIGHT_CONTEXT_KEYWORDS`. -/
def rightContextKeywords : List Str :=
  ["create".toList, "creating".toList, "created through".toList,
   "make".toList, "making".toList, "made through".toList,
   "generate".toList, "generating".toList,
   "how to create".toList, "how to make".toList,
   "steps to create".toList, "steps to make".toList,
   "new".toList, "add".toList, "adding".toList,
   "matrix".toList]

/-- Number of wrong-context keywords occurring in the (lowercased) content:
the `wrong_score` loop of `calculate_context_score`. -/
def wrongCount (contentLower : Str) : Nat :=
  (wrongContextKeywords.filter (fun k => isSubstrOf k contentLower)).length

/-- Number of right-context keywords occurring in the (lowercased) content:
the `right_score` loop of `calculate_context_score`. -/
def rightCount (contentLower : Str) : Nat :=
  (rightContextKeywords.filter (fun k => isSubstrOf k contentLower)).length

/-- `IntentDetector.calculate_context_score` (enhanced_search.py 133-173). -/
def calculateContextScore (content : Str) (intent : IntentMatch) : ℚ :=
  if intent.intent ≠ QueryIntent.create then 0
  else
    let contentLower := lowerStr content
    let subjectLower := lowerStr intent.subject
    if subjectLower ≠ [] ∧ isSubstrOf subjectLower contentLower = false then 0
    else
      let wrong := wrongCount contentLower
      let right := rightCount contentLower
      if right < wrong ∧ 2 ≤ wrong then -0.15
      else if wrong < right ∧ 2 ≤ right then 0.15
      else if 0 < right ∧ wrong = 0 then 0.10
      else if 0 < wrong ∧ right = 0 then -0.10
      else 0

-- ===================== Pipeline stages (enhanced_search.py 404-527) ========

/-- `_merge_bm25_scores` (enhanced_search.py 615-634).  The per-chunk BM25
scores (`_calculate_bm25_scores_fast`, whose idf uses `np.log` and therefore
has no exact rational embedding) are an oracle `bm25 : Str → ℚ` mapping a
chunk id to its normalized BM25 score (`bm25_scores.get(chunk_id, 0)`); the
weighted blend and the re-sort are modelled exactly. -/
def mergeBm25Scores (w : ℚ) (bm25 : Str → ℚ) (l : List SearchResult) : List SearchResult :=
  sortDesc (l.map (fun r => { r with score := (1 - w) * r.score + w * bm25 r.chunk_id }))

/-- The per-result update of the intent-filter stage (enhanced_search.py
424-439): when the modifier is nonzero the score becomes
`max(0.0, min(1.0, original_score + modifier))`, otherwise it is untouched. -/
def intentUpdate (intent : IntentMatch) (r : SearchResult) : SearchResult :=
  let m := calculateContextScore r.content intent
  if m = 0 then r else { r with score := clamp01 (r.score + m) }

/-- Step 5 of `search`: apply the intent modifier to every result, then
re-sort by score (enhanced_search.py 419-448). -/
def intentStage (intent : IntentMatch) (l : List SearchResult) : List SearchResult :=
  sortDesc (l.map (intentUpdate intent))

/-- Step 6 of `search`: the relevance-threshold gate
(enhanced_search.py 455-478).  If at least `min(top_k, 3)` results pass the
threshold, keep exactly the passing ones; otherwise re-sort and keep the top
`max(min(top_k, 3), len(filtered))` results. -/
def thresholdStage (minRel : ℚ) (topk : Nat) (l : List SearchResult) : List SearchResult :=
  let filtered := l.filter (fun r => decide (minRel ≤ r.score))
  let minRequired := min topk 3
  if minRequired ≤ filtered.length then filtered
  else (sortDesc l).take (max minRequired filtered.length)

-- ===================== MMR (enhanced_search.py 636-680) ====================

/-- `content.split()` turned into a set: the word set used by the Jaccard
similarity inside `_apply_mmr` (`set(candidate_content.split())`). -/
def wordsOf (s : Str) : List Str :=
  ((splitPred Char.isWhitespace (lowerStr s)).filter (fun w => w ≠ [])).dedup

/-- `len(c_words & s_words)` for deduplicated word lists. -/
def interLen (aw bw : List Str) : Nat := (aw.filter (fun w => w ∈ bw)).length

/-- `len(c_words | s_words)` for deduplicated word lists. -/
def unionLen (aw bw : List Str) : Nat :=
  aw.length + (bw.filter (fun w => ¬ w ∈ aw)).length

/-- The Jaccard similarity of `_apply_mmr` (enhanced_search.py 661-666);
when both word sets are empty the Python code skips the comparison, which is
equivalent to contributing 0 to the running maximum. -/
def jaccard (a b : Str) : ℚ :=
  let aw := wordsOf a
  let bw := wordsOf b
  if aw.isEmpty ∧ bw.isEmpty then 0
  else (interLen aw bw : ℚ) / (unionLen aw bw : ℚ)

/-- `max_sim` over the already selected results (enhanced_search.py 656-666). -/
def maxSimTo (selected : List SearchResult) (c : SearchResult) : ℚ :=
  selected.foldl (fun acc s => maxQ acc (jaccard c.content s.content)) 0

/-- `mmr_score = λ·relevance − (1−λ)·max_sim` (enhanced_search.py 668). -/
def mmrScore (lam : ℚ) (selected : List SearchResult) (c : SearchResult) : ℚ :=
  lam * c.score - (1 - lam) * maxSimTo selected c

/-- The inner argmax of `_apply_mmr`: the first candidate with maximal MMR
score (Python keeps the incumbent unless a strictly larger score appears). -/
def pickBest (lam : ℚ) (selected cands : List SearchResult) : Option SearchResult :=
  (cands.foldl (fun best c =>
    let sc := mmrScore lam selected c
    match best with
    | none => some (c, sc)
    | some (b, bs) => if bs < sc then some (c, sc) else some (b, bs)) none).map Prod.fst

/-- The `while len(selected) < top_k and candidates:` loop of `_apply_mmr`;
the fuel is the number of remaining candidates, which strictly decreases. -/
def mmrLoop (lam : ℚ) (topk : Nat) :
    Nat → List SearchResult → List SearchResult → List SearchResult
  | 0, selected, _ => selected
  | Nat.succ fuel, selected, cands =>
    if selected.length < topk then
      match pickBest lam selected cands with
      | none => selected
      | some b => mmrLoop lam topk fuel (selected ++ [b]) (cands.erase b)
    else selected

/-- `_apply_mmr` (enhanced_search.py 636-680). -/
def applyMmr (lam : ℚ) (topk : Nat) (l : List SearchResult) : List SearchResult :=
  if l.length ≤ topk then l
  else
    match l with
    | [] => []
    | h :: t => mmrLoop lam topk t.length [h] t

-- ===================== Rerankers (reranker.py) =============================

/-- A regex word character, `\w` of `re.findall(r'\b\w+\b', text)`. -/
def isWordChar (c : Char) : Bool := c.isAlphanum || c = '_'

/-- `SimpleReranker._tokenize`: word tokens of length `> 2`
(reranker.py 244-248). -/
def tokenize (s : Str) : List Str :=
  (splitPred (fun c => !(isWordChar c)) s).filter (fun w => 2 < w.length)

/-- The new score `SimpleReranker.rerank` assigns to one result
(reranker.py 202-231). -/
def simpleRerankScore (query : Str) (qterms : List Str) (r : SearchResult) : ℚ :=
  let content := lowerStr r.content
  let cterms := (tokenize content).dedup
  let overlap : ℚ :=
    if qterms ≠ [] ∧ cterms ≠ [] then (interLen qterms cterms : ℚ) / (qterms.length : ℚ)
    else 0
  let phraseBonus : ℚ := if isSubstrOf (lowerStr query) content then 0.2 else 0
  let first500 := content.take 500
  let earlyBonus : ℚ :=
    minQ (0.05 * ((qterms.filter (fun t => isSubstrOf t first500)).length : ℚ)) 0.15
  0.4 * overlap + phraseBonus + earlyBonus + 0.4 * r.score

/-- `SimpleReranker.rerank` (reranker.py 188-242): rescore every result,
sort by the new score descending, truncate to `top_k`. -/
def simpleRerank (query : Str) (l : List SearchResult) (topk : Nat) : List SearchResult :=
  if l.isEmpty then []
  else
    let qterms := (tokenize (lowerStr query)).dedup
    (sortDesc (l.map (fun r => { r with score := simpleRerankScore query qterms r }))).take topk

/-- `LLMReranker.rerank` (reranker.py 71-122).  The LLM relevance score of a
document (`_score_relevance`, an OpenAI call normalized to [0,1]) is an
oracle `oracle query content`; the 0.7/0.3 blend, the sort by the new score
and the truncation are modelled exactly.  Batching only affects latency, not
the resulting list. -/
def llmRerank (oracle : Str → Str → ℚ) (query : Str) (l : List SearchResult) (topk : Nat) :
    List SearchResult :=
  if l.isEmpty then []
  else if l.length ≤ 1 then l
  else
    (sortDesc (l.map (fun r =>
      { r with score := 0.7 * oracle query r.content + 0.3 * r.score }))).take topk

/-- `HybridReranker.rerank` (reranker.py 270-297): simple rerank to the top
`llm_top_k`, then LLM rerank when more than one candidate survives. -/
def hybridRerank (oracle : Str → Str → ℚ) (llmTopK : Nat) (query : Str)
    (l : List SearchResult) (topk : Nat) : List SearchResult :=
  if l.isEmpty then []
  else
    let simple := simpleRerank query l llmTopK
    let final := if 1 < simple.length then llmRerank oracle query simple topk else simple
    final.take topk

/-- The reranker selected by `RerankerFactory.create`; the LLM-backed
variants carry their scoring oracle. -/
inductive RerankerKind
  | simple
  | llm (oracle : Str → Str → ℚ)
  | hybrid (oracle : Str → Str → ℚ) (llmTopK : Nat)

/-- Dispatch `reranker.rerank(query, results, top_k)`. -/
def runReranker : RerankerKind → Str → List SearchResult → Nat → List SearchResult
  | RerankerKind.simple, q, l, k => simpleRerank q l k
  | RerankerKind.llm oracle, q, l, k => llmRerank oracle q l k
  | RerankerKind.hybrid oracle m, q, l, k => hybridRerank oracle m q l k

-- ===================== Pipeline (enhanced_search.py 273-555) ===============

/-- The per-call feature toggles of `EnhancedSearchService.search`
(`do_bm25`, `do_intent_filter`, `do_threshold`, `do_mmr`, `do_reranking`). -/
structure SearchFlags where
  bm25 : Bool
  intentFilter : Bool
  threshold : Bool
  mmr : Bool
  reranking : Bool

/-- The configuration the stages read (`BM25_WEIGHT`, `MMR_LAMBDA`,
`MIN_RELEVANCE_SCORE`). -/
structure SearchConfig where
  bm25Weight : ℚ
  mmrLambda : ℚ
  minRelevance : ℚ

/-- `fetch_multiplier = 3 if (do_mmr or do_reranking or do_intent_filter)
else 1` (enhanced_search.py 365). -/
def fetchMultiplier (fl : SearchFlags) : Nat :=
  if fl.mmr || fl.reranking || fl.intentFilter then 3 else 1

/-- The dense retrieval of `VectorStore.search` (vector_store.py 250-274):
cosine scores are computed for every chunk of the KB, sorted descending, and
the top `top_k` kept.  The scored candidate list `sims` stands for the
per-chunk similarities (the cosine values are data here; the cosine function
itself is verified separately). -/
def vectorStoreTopK (sims : List SearchResult) (k : Nat) : List SearchResult :=
  (sortDesc sims).take k

/-- Step 4 of `search`: BM25 boosting runs only when enabled and search
terms exist (enhanced_search.py 407). -/
def gateBm25 (fl : SearchFlags) (cfg : SearchConfig) (bm25 : Str → ℚ)
    (searchTerms : List Str) (l : List SearchResult) : List SearchResult :=
  if fl.bm25 = true ∧ searchTerms ≠ [] then mergeBm25Scores cfg.bm25Weight bm25 l else l

/-- Step 5 of `search`: the intent filter runs only when enabled and the
detected intent is not `unknown` (enhanced_search.py 419). -/
def gateIntent (fl : SearchFlags) (intent : IntentMatch) (l : List SearchResult) :
    List SearchResult :=
  if fl.intentFilter = true ∧ intent.intent ≠ QueryIntent.unknown then intentStage intent l
  else l

/-- Step 6 of `search`: the threshold gate runs only when enabled
(enhanced_search.py 455). -/
def gateThreshold (fl : SearchFlags) (cfg : SearchConfig) (topk : Nat)
    (l : List SearchResult) : List SearchResult :=
  if fl.threshold = true then thresholdStage cfg.minRelevance topk l else l

/-- Step 7 of `search`: MMR runs only when enabled and there are more
candidates than `top_k` (enhanced_search.py 483). -/
def gateMmr (fl : SearchFlags) (cfg : SearchConfig) (topk : Nat)
    (l : List SearchResult) : List SearchResult :=
  if fl.mmr = true ∧ topk < l.length then applyMmr cfg.mmrLambda topk l else l

/-- Step 8 of `search`: reranking runs only when enabled and more than one
candidate remains (enhanced_search.py 494). -/
def gateRerank (fl : SearchFlags) (rk : RerankerKind) (query : Str) (topk : Nat)
    (l : List SearchResult) : List SearchResult :=
  if fl.reranking = true ∧ 1 < l.length then runReranker rk query l topk else l

/-- The response fields of `EnhancedSearchService.search` that the claims
are about. -/
structure SearchResponse where
  totalFound : Nat
  returned : Nat
  textResults : List SearchResult
deriving DecidableEq

/-- Steps 4-8 plus the final `all_results[:top_k]` trim of
`EnhancedSearchService.search` (enhanced_search.py 379-527), starting from
the converted dense results `all0`. -/
def pipelineFinal (fl : SearchFlags) (cfg : SearchConfig) (rk : RerankerKind)
    (intent : IntentMatch) (searchTerms : List Str) (bm25 : Str → ℚ)
    (query : Str) (topk : Nat) (all0 : List SearchResult) : List SearchResult :=
  (gateRerank fl rk query topk
    (gateMmr fl cfg topk
      (gateThreshold fl cfg topk
        (gateIntent fl intent
          (gateBm25 fl cfg bm25 searchTerms all0))))).take topk

/-- The response assembly of `EnhancedSearchService.search`: an empty dense
result returns the empty response immediately (enhanced_search.py 385-400),
otherwise the pipeline output is returned with `total_found` the dense
candidate count and `returned` the final result count. -/
def searchPipeline (fl : SearchFlags) (cfg : SearchConfig) (rk : RerankerKind)
    (intent : IntentMatch) (searchTerms : List Str) (bm25 : Str → ℚ)
    (query : Str) (topk : Nat) (all0 : List SearchResult) : SearchResponse :=
  if all0 = [] then { totalFound := 0, returned := 0, textResults := [] }
  else
    { totalFound := all0.length,
      returned := (pipelineFinal fl cfg rk intent searchTerms bm25 query topk all0).length,
      textResults := pipelineFinal fl cfg rk intent searchTerms bm25 query topk all0 }

/-- `EnhancedSearchService.search` over the non-cached dense path: one
vector search fetching `top_k * fetch_multiplier` candidates, then the
enhancement pipeline.  `intent` is the output of `IntentDetector.detect`
(a total classifier, quantified over), `searchTerms` the expansion output,
`bm25` and the reranker oracles as above. -/
def enhancedSearch (fl : SearchFlags) (cfg : SearchConfig) (rk : RerankerKind)
    (intent : IntentMatch) (searchTerms : List Str) (bm25 : Str → ℚ)
    (query : Str) (topk : Nat) (sims : List SearchResult) : SearchResponse :=
  searchPipeline fl cfg rk intent searchTerms bm25 query topk
    (vectorStoreTopK sims (topk * fetchMultiplier fl))

end EnhancedSearch

namespace VectorStore

/-- `np.dot` on float vectors, as reals. -/
def dotp (a b : List ℝ) : ℝ := (List.zipWith (· * ·) a b).sum

/-- `np.linalg.norm`, the Euclidean norm √(v·v). -/
noncomputable def norm2 (a : List ℝ) : ℝ := Real.sqrt (dotp a a)

/-- `VectorStore._cosine_similarity` (vector_store.py 357-366): return 0 when
either norm is 0, otherwise `dot / (norm1 * norm2)`.  Python floats are
idealized as reals; the claim's "never NaN" reading is that the division is
only taken with a provably nonzero denominator. -/
noncomputable def cosineSimilarity (a b : List ℝ) : ℝ :=
  if norm2 a = 0 ∨ norm2 b = 0 then 0 else dotp a b / (norm2 a * norm2 b)

-- ===================== store_document (vector_store.py 49-153) =============

/-- A chunk as handed to `store_document` (the fields it reads). -/
structure ChunkIn where
  chunk_id : Str
  chunk_index : Nat
  content : Str
  chunk_type : Str
deriving DecidableEq

/-- One entry of the `embeddings` list handed to `store_document`. -/
structure EmbeddingIn where
  chunk_id : Str
  embedding : List ℚ
deriving DecidableEq

/-- A row of `yovo_tbl_aiva_document_chunks` as inserted by
`store_document`. -/
structure CatalogRow where
  chunk_id : Str
  document_id : Str
  kb_id : Str
  chunk_index : Nat
  content : Str
  chunk_type : Str
deriving DecidableEq

/-- The JSON payload written under a vector key (vector_store.py 122-130);
the content preview is truncated to 500 characters. -/
structure VectorData where
  chunk_id : Str
  document_id : Str
  kb_id : Str
  embedding : List ℚ
  content : Str
  chunk_type : Str
deriving DecidableEq

/-- A Redis `set` performed by `store_document`. -/
structure RedisWrite where
  key : Str
  data : VectorData
deriving DecidableEq

/-- `f"{self.prefix}{kb_id}:{chunk_id}"` (vector_store.py 121) with
`REDIS_VECTOR_PREFIX = "vector:"`. -/
def vectorKey (kb cid : Str) : Str := "vector:".toList ++ kb ++ ":".toList ++ cid

/-- `embedding_map = {emb["chunk_id"]: emb for emb in embeddings}`
(vector_store.py 94): later entries overwrite earlier ones, so lookup finds
the last embedding with the given chunk id. -/
def embeddingLookup (embeddings : List EmbeddingIn) (cid : Str) : Option EmbeddingIn :=
  embeddings.reverse.find? (fun e => e.chunk_id == cid)

/-- The catalog row inserted for a chunk (vector_store.py 106-118). -/
def mkRow (docId kb : Str) (c : ChunkIn) : CatalogRow :=
  { chunk_id := c.chunk_id, document_id := docId, kb_id := kb,
    chunk_index := c.chunk_index, content := c.content, chunk_type := c.chunk_type }

/-- The Redis write performed for a chunk (vector_store.py 120-135). -/
def mkWrite (docId kb : Str) (c : ChunkIn) (e : EmbeddingIn) : RedisWrite :=
  { key := vectorKey kb c.chunk_id,
    data := { chunk_id := c.chunk_id, document_id := docId, kb_id := kb,
              embedding := e.embedding, content := c.content.take 500,
              chunk_type := c.chunk_type } }

/-- The `for chunk in chunks` loop of `store_document` (vector_store.py
97-135): a chunk with no embedding is skipped with a warning; otherwise one
catalog insert and one Redis vector write are emitted, in chunk order. -/
def processChunks (docId kb : Str) (embeddings : List EmbeddingIn) :
    List ChunkIn → List CatalogRow × List RedisWrite
  | [] => ([], [])
  | c :: cs =>
    let rest := processChunks docId kb embeddings cs
    match embeddingLookup embeddings c.chunk_id with
    | none => rest
    | some e => (mkRow docId kb c :: rest.1, mkWrite docId kb c e :: rest.2)

/-- `store_document` restricted to its persisted outputs: the list of catalog
rows inserted and the list of Redis vector writes (the surrounding
transaction and the document-status update do not alter which chunk rows and
vector keys are produced). -/
def storeDocument (docId kb : Str) (chunks : List ChunkIn)
    (embeddings : List EmbeddingIn) : List CatalogRow × List RedisWrite :=
  processChunks docId kb embeddings chunks

end VectorStore

namespace SemanticCache

/-- `SemanticCache._cosine_similarity` (semantic_cache.py 67-83), textually
identical to the vector store's copy. -/
noncomputable def cosineSimilarity (a b : List ℝ) : ℝ :=
  if VectorStore.norm2 a = 0 ∨ VectorStore.norm2 b = 0 then 0
  else VectorStore.dotp a b / (VectorStore.norm2 a * VectorStore.norm2 b)

/-- One cached entry as serialized by `cache_result`
(semantic_cache.py 216-226). -/
structure CacheEntry where
  query : Str
  embedding : List ℚ
  results : Str
  search_type : Str
  created_at : ℚ
  last_accessed : ℚ
  access_count : Nat
deriving DecidableEq

/-- A Redis key with its value and its expiry instant (`setex`). -/
structure Stored where
  key : Str
  expiresAt : ℚ
  entry : CacheEntry
deriving DecidableEq

/-- One element of the per-KB `cache_index:{kb_id}` list
(semantic_cache.py 265-270). -/
structure IndexEntry where
  key : Str
  search_type : Str
  query_preview : Str
  created_at : ℚ
deriving DecidableEq

/-- The Redis state visible to one KB's semantic cache: the optional index
list and the cache entries with their expiries. -/
structure Store where
  index : Option (List IndexEntry)
  entries : List Stored
deriving DecidableEq

/-- Which internal operations raise, modelling the exception paths of
`get_cached_result` / `cache_result` / `_update_cache_index`:
`indexGet` - reading or parsing the cache index raises;
`entryGet key` - reading or parsing the entry at `key` raises (caught by the
inner `try` of the scan loop, which `continue`s);
`hitSetex` - the `setex` refreshing a hit raises (caught by the outer `try`);
`entrySetex` - the `setex` writing a new entry raises;
`indexUpdate` - any operation inside `_update_cache_index` raises (caught by
its own `try`). -/
structure Faults where
  indexGet : Bool
  entryGet : Str → Bool
  hitSetex : Bool
  entrySetex : Bool
  indexUpdate : Bool

/-- The failure-free execution. -/
def noFaults : Faults :=
  { indexGet := false, entryGet := fun _ => false, hitSetex := false,
    entrySetex := false, indexUpdate := false }

/-- `f` with its per-entry read failures removed (used to state that the
scan loop merely skips the keys whose reads raise). -/
def unfaulted (f : Faults) : Faults := { f with entryGet := fun _ => false }

/-- `self.redis_client.get(cache_key)` at time `now`: the stored value if the
key exists and has not expired. -/
def lookupStored (store : Store) (now : ℚ) (key : Str) : Option Stored :=
  store.entries.find? (fun s => s.key == key && decide (now < s.expiresAt))

/-- One iteration of the similarity scan of `get_cached_result`
(semantic_cache.py 131-149): fetch the entry (an exception or a missing key
skips it), compute the cosine against the query embedding, and keep it when
it strictly improves the best similarity (which starts at 0.0). -/
def scanStep (f : Faults) (cos : List ℚ → List ℚ → ℚ) (store : Store) (now : ℚ)
    (qemb : List ℚ) (acc : ℚ × Option (Str × CacheEntry)) (key : Str) :
    ℚ × Option (Str × CacheEntry) :=
  if f.entryGet key then acc
  else
    match lookupStored store now key with
    | none => acc
    | some s =>
      let sim := cos qemb s.entry.embedding
      if acc.1 < sim then (sim, some (key, s.entry)) else acc

/-- The whole scan loop, folding `scanStep` over the relevant keys starting
from `best_similarity = 0.0`, `best_match = None`. -/
def scanBest (f : Faults) (cos : List ℚ → List ℚ → ℚ) (store : Store) (now : ℚ)
    (qemb : List ℚ) (keys : List Str) : ℚ × Option (Str × CacheEntry) :=
  keys.foldl (scanStep f cos store now qemb) (0, none)

/-- The refresh `setex` performed on a cache hit (semantic_cache.py 159-166)
as a per-key store update: the matched entry gets `last_accessed = now`,
`access_count + 1` and a fresh full TTL. -/
def refreshStored (now ttl : ℚ) (bkey : Str) (s : Stored) : Stored :=
  if s.key == bkey then
    { key := s.key, expiresAt := now + ttl,
      entry := { s.entry with
                 last_accessed := now,
                 access_count := s.entry.access_count + 1 } }
  else s

/-- What `get_cached_result` returns on a hit (semantic_cache.py 168-175). -/
structure Hit where
  results : Str
  cache_similarity : ℚ
  original_query : Str
  cache_age_seconds : ℚ
  access_count : Nat
deriving DecidableEq

/-- `SemanticCache.get_cached_result` (semantic_cache.py 85-185), returning
the optional hit together with the post-call store.  The cosine similarity
on float vectors is an oracle `cos`; `f` selects which internal operations
raise.  The outer `try/except` returns `None` (with the store unchanged)
when the index read or the hit-refresh `setex` raises; per-entry read errors
are caught inside the scan loop and skip only that entry. -/
def getCachedResult (f : Faults) (cos : List ℚ → List ℚ → ℚ) (threshold ttl : ℚ)
    (store : Store) (now : ℚ) (qemb : List ℚ) (stype : Str) :
    Option Hit × Store :=
  if f.indexGet then (none, store)
  else
    match store.index with
    | none => (none, store)
    | some idx =>
      let relevantKeys := (idx.filter (fun e => e.search_type == stype)).map (·.key)
      if relevantKeys = [] then (none, store)
      else
        match scanBest f cos store now qemb relevantKeys with
        | (best, some (bkey, bentry)) =>
          if threshold ≤ best then
            if f.hitSetex then (none, store)
            else
              (some { results := bentry.results, cache_similarity := best,
                      original_query := bentry.query,
                      cache_age_seconds := now - bentry.created_at,
                      access_count := bentry.access_count + 1 },
               { store with entries := store.entries.map (refreshStored now ttl bkey) })
          else (none, store)
        | (_, none) => (none, store)

/-- `f"{self.cache_prefix}{kb_id}:{query_hash}"` (semantic_cache.py 59-61). -/
def cacheKey (kb hash : Str) : Str := "semantic_cache:".toList ++ kb ++ ":".toList ++ hash

/-- `setex` of a key that may or may not exist yet: overwrite or append. -/
def setexStore (store : Store) (s : Stored) : Store :=
  { store with entries := store.entries.filter (fun t => !(t.key == s.key)) ++ [s] }

/-- The `[-1000:]` trim of the cache index (semantic_cache.py 272-274). -/
def trimIndex (l : List IndexEntry) : List IndexEntry :=
  if 1000 < l.length then l.drop (l.length - 1000) else l

/-- The body of `_update_cache_index` (semantic_cache.py 243-284) before its
own `try/except`: append the new entry to the (possibly missing) index, trim
to the last 1000, and write it back.  `f.indexUpdate` makes some operation
inside raise. -/
def updateCacheIndexE (f : Faults) (store : Store) (key stype qpreview : Str)
    (now : ℚ) : Except Unit Store :=
  if f.indexUpdate then Except.error ()
  else
    Except.ok { store with
      index := some (trimIndex ((store.index.getD []) ++
        [{ key := key, search_type := stype, query_preview := qpreview.take 100,
           created_at := now }])) }

/-- `SemanticCache.cache_result` (semantic_cache.py 187-241).  `md5` stands
for `hashlib.md5(...).hexdigest()` (an injective-in-practice digest,
quantified over).  The entry `setex` happens first; `_update_cache_index`
catches its own errors, so a failing index update leaves the entry written;
an error at the entry write itself is caught by the outer `try` and leaves
the store unchanged. -/
def cacheResult (f : Faults) (md5 : Str → Str) (ttl : ℚ) (store : Store) (now : ℚ)
    (kb query : Str) (qemb : List ℚ) (results : Str) (stype : Str) : Store :=
  if f.entrySetex then store
  else
    let hash := md5 (query ++ ":".toList ++ stype)
    let key := cacheKey kb hash
    let entry : CacheEntry :=
      { query := query, embedding := qemb, results := results, search_type := stype,
        created_at := now, last_accessed := now, access_count := 0 }
    let s1 := setexStore store { key := key, expiresAt := now + ttl, entry := entry }
    match updateCacheIndexE f s1 key stype query now with
    | Except.ok s2 => s2
    | Except.error _ => s1

end SemanticCache

namespace Chunker

/-- The `ContentType` enum of `content_aware_chunker.py`. -/
inductive ChunkContentType
  | documentation
  | code
  | narrative
  | tabular
  | faq
  | general
deriving DecidableEq

/-- One split produced by the `MarkdownHeaderTextSplitter`: the header
context string (already joined with " > " and terminated by a blank line, or
empty) and the section content. -/
structure HeaderSection where
  headerContext : Str
  content : Str

/-- The LangChain collaborators of `ContentAwareChunker`, as oracles:
`preprocess` is `_preprocess_for_semantic_boundaries` (a pure total text
rewrite), `headerSplit` the markdown header splitter (which may raise),
`splitText ct` the `RecursiveCharacterTextSplitter` configured for content
type `ct` (which may raise), and `chunkSize ct` its `_chunk_size`. -/
structure LangchainEnv where
  preprocess : Str → Str
  headerSplit : Str → Except Str (List HeaderSection)
  splitText : ChunkContentType → Str → Except Str (List Str)
  chunkSize : ChunkContentType → Nat

/-- The `try` body of the documentation path of `_chunk_with_langchain`
(content_aware_chunker.py 355-375): header-split, then re-split any
augmented section longer than the configured chunk size.  An exception from
either the header splitter or the recursive splitter escapes this body (and
is caught by the surrounding `except`). -/
def headerPath (env : LangchainEnv) (t : Str) : Except Str (List Str) := do
  let secs ← env.headerSplit t
  secs.foldlM (fun acc sec => do
    let aug := sec.headerContext ++ sec.content
    if env.chunkSize ChunkContentType.documentation < aug.length then do
      let cs ← env.splitText ChunkContentType.documentation aug
      pure (acc ++ cs)
    else pure (acc ++ [aug])) []

/-- `_chunk_with_langchain` (content_aware_chunker.py 341-379): preprocess,
then for structure-preserving documentation try the header path, falling
back to the standard recursive split when it raises; errors of the standard
recursive split itself propagate. -/
def chunkWithLangchain (env : LangchainEnv) (ctype : ChunkContentType)
    (preserve : Bool) (text : Str) : Except Str (List Str) :=
  let t := env.preprocess text
  if preserve = true ∧ ctype = ChunkContentType.documentation then
    match headerPath env t with
    | Except.ok cs => Except.ok cs
    | Except.error _ => env.splitText ctype t
  else env.splitText ctype t

/-- A chunk object emitted by `chunk_text` (index and content; the metadata
fields are derived from the content by pure total classifiers and are not
read by the claims). -/
structure ChunkObj where
  chunk_index : Nat
  content : Str
deriving DecidableEq

/-- The `for idx, chunk_text in enumerate(chunks)` object-building loop
(content_aware_chunker.py 302-324). -/
def buildChunkObjects (chunks : List Str) : List ChunkObj :=
  chunks.enum.map (fun p => { chunk_index := p.1, content := p.2 })

/-- `ContentAwareChunker.chunk_text` (content_aware_chunker.py 257-339):
empty or whitespace-only text returns `[]`; otherwise the content type is
the given one or the detected one (`detect` is the pure total
`detect_content_type`, quantified over), and the text is split with
LangChain when available or with `_chunk_fallback` (`fallbackSplit`,
quantified over) otherwise.  There is no exception handler here: an error
from `chunkWithLangchain` propagates to the caller. -/
def chunkText (available : Bool) (env : LangchainEnv)
    (fallbackSplit : Str → ChunkContentType → List Str)
    (detect : Str → ChunkContentType) (text : Str)
    (ctypeOpt : Option ChunkContentType) (preserve : Bool) :
    Except Str (List ChunkObj) :=
  if trimStr text = [] then Except.ok []
  else
    let ctype := ctypeOpt.getD (detect text)
    if available then (chunkWithLangchain env ctype preserve text).map buildChunkObjects
    else Except.ok (buildChunkObjects (fallbackSplit text ctype))

end Chunker

namespace Documents

/-- `settings.MAX_FILE_SIZE_MB` (config.py 100). -/
def maxFileSizeMB : Nat := 50

/-- The fields of `AsyncDocumentUploadResponse` the claim is about. -/
structure AsyncUploadResponse where
  status : Str
  file_size_bytes : Nat
  estimated_time_seconds : Nat
deriving DecidableEq

/-- `upload_document` (documents.py 113-193) reduced to its size-dependent
control flow: an oversized file raises HTTP 413, otherwise the endpoint
queues the job and returns immediately with status `"queued"` and
`estimated_time = max(10, size // 10000 + max(1, size // 1500) // 2)`
(documents.py 161-163, Python floor division).  Failures of the job store
and temp-file writes (HTTP 500) are outside the modelled path. -/
def uploadDocument (size : Nat) : Except Nat AsyncUploadResponse :=
  if maxFileSizeMB * 1024 * 1024 < size then Except.error 413
  else
    Except.ok
      { status := "queued".toList, file_size_bytes := size,
        estimated_time_seconds := max 10 (size / 10000 + (max 1 (size / 1500)) / 2) }

end Documents

namespace Examples

open EnhancedSearch

/-- Content "a b" for the concrete MMR run. -/
def cAB : Str := "a b".toList

/-- Content "x y" for the concrete MMR run. -/
def cXY : Str := "x y".toList

/-- Candidate with score 1.0 and content "a b". -/
def rr1 : SearchResult := ⟨"c1".toList, cAB, 1⟩

/-- Candidate with score 0.9 and content "a b" (near-duplicate of `rr1`). -/
def rr2 : SearchResult := ⟨"c2".toList, cAB, 9/10⟩

/-- Candidate with score 0.5 and content "x y". -/
def rr3 : SearchResult := ⟨"c3".toList, cXY, 1/2⟩

/-- Candidate with score 0.8 and content "x y". -/
def rr4 : SearchResult := ⟨"c4".toList, cXY, 4/5⟩

/-- Feature set with only MMR enabled. -/
def flMmrOnly : SearchFlags :=
  { bm25 := false, intentFilter := false, threshold := false, mmr := true,
    reranking := false }

/-- Feature set with every optional stage disabled. -/
def flNone : SearchFlags :=
  { bm25 := false, intentFilter := false, threshold := false, mmr := false,
    reranking := false }

/-- Default weights: `BM25_WEIGHT 0.3`, `MMR_LAMBDA 0.7`,
`MIN_RELEVANCE_SCORE 0.5`. -/
def cfg0 : SearchConfig := { bm25Weight := 3/10, mmrLambda := 7/10, minRelevance := 1/2 }

/-- The `unknown` intent, as `detect` returns for unmatched queries. -/
def imUnknown : IntentMatch := ⟨QueryIntent.unknown, [], 3/10⟩

/-- A create intent whose extracted subject "zzz" does not occur in
`wrongCtx`. -/
def imCreate : IntentMatch := ⟨QueryIntent.create, "zzz".toList, 4/5⟩

/-- A create intent with an empty extracted subject. -/
def imCreateEmpty : IntentMatch := ⟨QueryIntent.create, [], 4/5⟩

/-- Chunk content carrying four wrong-context keywords ("against the",
"from the", "received", "grn") and no right-context keyword. -/
def wrongCtx : Str := "against the grn received from the warehouse".toList

/-- A result passing the default relevance threshold. -/
def rHigh : SearchResult := ⟨"h".toList, [], 9/10⟩

/-- A result failing the default relevance threshold. -/
def rLow : SearchResult := ⟨"l".toList, [], 1/10⟩

/-- A LangChain environment whose recursive splitter always raises. -/
def envBoom : Chunker.LangchainEnv :=
  { preprocess := id, headerSplit := fun _ => Except.ok [],
    splitText := fun _ _ => Except.error "boom".toList, chunkSize := fun _ => 800 }

/-- A LangChain environment whose splitters behave trivially. -/
def envOk : Chunker.LangchainEnv :=
  { preprocess := id, headerSplit := fun _ => Except.error "hdr".toList,
    splitText := fun _ t => Except.ok [t], chunkSize := fun _ => 800 }

/-- A trivial fixed fallback splitter. -/
def fbWhole : Str → Chunker.ChunkContentType → List Str := fun t _ => [t]

/-- A trivial content-type detector. -/
def detGeneral : Str → Chunker.ChunkContentType := fun _ => Chunker.ChunkContentType.general

/-- A cached entry created at time 100. -/
def entry0 : SemanticCache.CacheEntry :=
  { query := "refund policy".toList, embedding := [1],
    results := "cached-results".toList, search_type := "text".toList,
    created_at := 100, last_accessed := 100, access_count := 0 }

/-- `entry0` stored under its key, expiring at time 3700. -/
def stored0 : SemanticCache.Stored :=
  { key := "k".toList, expiresAt := 3700, entry := entry0 }

/-- The index entry pointing at `stored0`. -/
def idx0 : SemanticCache.IndexEntry :=
  { key := "k".toList, search_type := "text".toList,
    query_preview := "refund policy".toList, created_at := 100 }

/-- A one-entry cache store. -/
def store0 : SemanticCache.Store := { index := some [idx0], entries := [stored0] }

/-- A cosine oracle declaring every pair identical. -/
def cosOne : List ℚ → List ℚ → ℚ := fun _ _ => 1

/-- Faults where only the index update raises. -/
def faultIndexUpdate : SemanticCache.Faults :=
  { SemanticCache.noFaults with indexUpdate := true }

/-- Faults where only the entry write raises. -/
def faultEntrySetex : SemanticCache.Faults :=
  { SemanticCache.noFaults with entrySetex := true }

/-- Faults where only the index read raises. -/
def faultIndexGet : SemanticCache.Faults :=
  { SemanticCache.noFaults with indexGet := true }

/-- An empty cache store with an (empty) index present. -/
def emptyStore : SemanticCache.Store := { index := some [], entries := [] }

/-- A chunk with an embedding in `embsA`. -/
def chunkA : VectorStore.ChunkIn :=
  { chunk_id := "a".toList, chunk_index := 0, content := "alpha".toList,
    chunk_type := "text".toList }

/-- A chunk with no embedding in `embsA`. -/
def chunkB : VectorStore.ChunkIn :=
  { chunk_id := "b".toList, chunk_index := 1, content := "beta".toList,
    chunk_type := "text".toList }

/-- The embedding list containing only chunk "a". -/
def embsA : List VectorStore.EmbeddingIn := [{ chunk_id := "a".toList, embedding := [1, 2] }]

end Examples

-- ===========================================================================
-- Lemmas about the stable descending sort
-- ===========================================================================

namespace EnhancedSearch

lemma insertDesc_perm (r : SearchResult) (l : List SearchResult) :
    (insertDesc r l).Perm (r :: l) := by
  induction l with
  | nil => simp [insertDesc]
  | cons x xs ih =>
    simp only [insertDesc]
    split
    · exact List.Perm.refl _
    · exact (ih.cons x).trans (List.Perm.swap r x xs)

lemma sortDesc_perm (l : List SearchResult) : (sortDesc l).Perm l := by
  induction l with
  | nil => simp [sortDesc]
  | cons x xs ih =>
    simpa [sortDesc] using (insertDesc_perm x (sortDesc xs)).trans (ih.cons x)

lemma mem_sortDesc {a : SearchResult} {l : List SearchResult} :
    a ∈ sortDesc l ↔ a ∈ l := (sortDesc_perm l).mem_iff

lemma insertDesc_pairwise {r : SearchResult} {l : List SearchResult}
    (h : l.Pairwise scoreGE) : (insertDesc r l).Pairwise scoreGE := by
  induction l with
  | nil => simp [insertDesc, scoreGE]
  | cons x xs ih =>
    rcases List.pairwise_cons.mp h with ⟨hx, hxs⟩
    simp only [insertDesc]
    split
    · rename_i hc
      refine List.pairwise_cons.mpr ⟨?_, h⟩
      intro y hy
      rcases List.mem_cons.mp hy with rfl | hy
      · exact hc
      · exact le_trans (hx y hy) hc
    · rename_i hc
      refine List.pairwise_cons.mpr ⟨?_, ih hxs⟩
      intro y hy
      rcases List.mem_cons.mp ((insertDesc_perm r xs).subset hy) with rfl | hy
      · exact le_of_lt (lt_of_not_le hc)
      · exact hx y hy

lemma sortDesc_pairwise (l : List SearchResult) : (sortDesc l).Pairwise scoreGE := by
  induction l with
  | nil => simp [sortDesc]
  | cons x xs ih => simpa [sortDesc] using insertDesc_pairwise (r := x) ih

lemma pairwise_take {l : List SearchResult} (n : Nat) (h : l.Pairwise scoreGE) :
    (l.take n).Pairwise scoreGE := h.sublist (List.take_sublist n l)

lemma pairwise_filter {l : List SearchResult} (p : SearchResult → Bool)
    (h : l.Pairwise scoreGE) : (l.filter p).Pairwise scoreGE :=
  h.sublist (List.filter_sublist l)

lemma pairwise_of_length_le_one {l : List SearchResult} (h : l.length ≤ 1) :
    l.Pairwise scoreGE := by
  match l, h with
  | [], _ => exact List.Pairwise.nil
  | [a], _ => simp

end EnhancedSearch

-- ===========================================================================
-- C7: async upload estimate
-- ===========================================================================

/-- C7 counterexample: a 50MB+1byte upload is rejected with HTTP 413 rather
than answered with status `queued` and an estimate, so the claim's "for
every uploaded file" fails at this size. -/
theorem C7_counterexample_oversized :
    Documents.uploadDocument 52428801 = Except.error 413 := rfl

/-- C7 (amended): for every uploaded file whose size does not exceed
`MAX_FILE_SIZE_MB` (50) megabytes, the async upload endpoint returns status
`queued` with an estimated processing time of
`max(10, size // 10_000 + size // 3_000)` seconds (floor division); the
code's `max(1, size // 1500) // 2` term equals `size // 3_000` exactly. -/
theorem C7_upload_estimate (size : Nat)
    (h : size ≤ Documents.maxFileSizeMB * 1024 * 1024) :
    Documents.uploadDocument size = Except.ok
      { status := "queued".toList, file_size_bytes := size,
        estimated_time_seconds := max 10 (size / 10000 + size / 3000) } := by
  have key : (max 1 (size / 1500)) / 2 = size / 3000 := by
    rcases lt_or_ge size 1500 with hlt | hge
    · have h1 : size / 1500 = 0 := Nat.div_eq_of_lt hlt
      have h2 : size / 3000 = 0 := Nat.div_eq_of_lt (by omega)
      simp [h1, h2]
    · have h1 : 1 ≤ size / 1500 := (Nat.one_le_div_iff (by norm_num)).mpr hge
      rw [max_eq_right h1, Nat.div_div_eq_div_mul]
  unfold Documents.uploadDocument
  rw [if_neg (not_lt.mpr h), key]

/-- C7 witness: the amended theorem applied to a 12345-byte file. -/
theorem C7_upload_estimate_witness :
    Documents.uploadDocument 12345 = Except.ok
      { status := "queued".toList, file_size_bytes := 12345,
        estimated_time_seconds := 10 } := by
  rw [C7_upload_estimate 12345 (by norm_num [Documents.maxFileSizeMB])]
  congr 1

-- ===========================================================================
-- C4: cosine similarity zero-vector safety
-- ===========================================================================

/-- C4: both `_cosine_similarity` implementations (vector store and semantic
cache) return exactly 0 whenever either vector has zero norm, and otherwise
compute `dot(a,b) / (‖a‖ * ‖b‖)` with a provably nonzero denominator, so no
division by zero occurs. -/
theorem C4_cosine_zero_safe (a b : List ℝ) :
    ((VectorStore.norm2 a = 0 ∨ VectorStore.norm2 b = 0) →
      VectorStore.cosineSimilarity a b = 0 ∧ SemanticCache.cosineSimilarity a b = 0) ∧
    (VectorStore.norm2 a ≠ 0 → VectorStore.norm2 b ≠ 0 →
      VectorStore.norm2 a * VectorStore.norm2 b ≠ 0 ∧
      VectorStore.cosineSimilarity a b =
        VectorStore.dotp a b / (VectorStore.norm2 a * VectorStore.norm2 b) ∧
      SemanticCache.cosineSimilarity a b =
        VectorStore.dotp a b / (VectorStore.norm2 a * VectorStore.norm2 b)) := by
  constructor
  · intro h
    constructor
    · simp [VectorStore.cosineSimilarity, h]
    · simp [SemanticCache.cosineSimilarity, h]
  · intro ha hb
    refine ⟨mul_ne_zero ha hb, ?_, ?_⟩
    · simp [VectorStore.cosineSimilarity, ha, hb]
    · simp [SemanticCache.cosineSimilarity, ha, hb]

/-- C4 witness: the theorem applied to the zero vector `[0]` against `[1]`
(result 0) and to `[1]` against `[1]` (the guarded division). -/
theorem C4_cosine_zero_safe_witness :
    VectorStore.cosineSimilarity [(0 : ℝ)] [1] = 0 ∧
    SemanticCache.cosineSimilarity [(0 : ℝ)] [1] = 0 ∧
    VectorStore.cosineSimilarity [(1 : ℝ)] [1] =
      VectorStore.dotp [1] [1] / (VectorStore.norm2 [1] * VectorStore.norm2 [1]) := by
  have hz : VectorStore.norm2 [(0 : ℝ)] = 0 := by
    simp [VectorStore.norm2, VectorStore.dotp]
  have ho : VectorStore.norm2 [(1 : ℝ)] ≠ 0 := by
    simp [VectorStore.norm2, VectorStore.dotp]
  refine ⟨((C4_cosine_zero_safe [0] [1]).1 (Or.inl hz)).1,
          ((C4_cosine_zero_safe [0] [1]).1 (Or.inl hz)).2,
          (((C4_cosine_zero_safe [1] [1]).2 ho ho).2).1⟩

-- ===========================================================================
-- C1: relevance threshold gate
-- ===========================================================================

namespace EnhancedSearch

lemma mem_take_of_pass_few {minRel : ℚ} {s : List SearchResult} {m : Nat}
    (hs : s.Pairwise scoreGE)
    (hlen : (s.filter (fun r => decide (minRel ≤ r.score))).length ≤ m) :
    ∀ r ∈ s, minRel ≤ r.score → r ∈ s.take m := by
  induction s generalizing m with
  | nil => intro r hr; simp at hr
  | cons x xs ih =>
    rcases List.pairwise_cons.mp hs with ⟨hx, hxs⟩
    intro r hr hrs
    by_cases hpx : minRel ≤ x.score
    · have hfl : ((x :: xs).filter (fun r => decide (minRel ≤ r.score))).length =
          (xs.filter (fun r => decide (minRel ≤ r.score))).length + 1 := by
        simp [List.filter_cons, hpx]
      rw [hfl] at hlen
      obtain ⟨m', rfl⟩ : ∃ m', m = m' + 1 := ⟨m - 1, by omega⟩
      rw [List.take_succ_cons]
      rcases List.mem_cons.mp hr with rfl | hr
      · exact List.mem_cons_self _ _
      · exact List.mem_cons_of_mem _ (ih hxs (by omega) r hr hrs)
    · rcases List.mem_cons.mp hr with rfl | hr
      · exact absurd hrs hpx
      · exact absurd (le_trans hrs (hx r hr)) hpx

lemma pass_of_mem_take {minRel : ℚ} {s : List SearchResult} {m : Nat}
    (hs : s.Pairwise scoreGE)
    (hlen : m ≤ (s.filter (fun r => decide (minRel ≤ r.score))).length) :
    ∀ r ∈ s.take m, minRel ≤ r.score := by
  induction s generalizing m with
  | nil => intro r hr; simp at hr
  | cons x xs ih =>
    rcases List.pairwise_cons.mp hs with ⟨hx, hxs⟩
    intro r hr
    match m, hlen with
    | 0, _ => simp at hr
    | m' + 1, hlen =>
      by_cases hpx : minRel ≤ x.score
      · have hfl : ((x :: xs).filter (fun r => decide (minRel ≤ r.score))).length =
            (xs.filter (fun r => decide (minRel ≤ r.score))).length + 1 := by
          simp [List.filter_cons, hpx]
        rw [hfl] at hlen
        rw [List.take_succ_cons] at hr
        rcases List.mem_cons.mp hr with rfl | hr
        · exact hpx
        · exact ih hxs (by omega) r hr
      · exfalso
        have hnil : xs.filter (fun r => decide (minRel ≤ r.score)) = [] := by
          rw [List.filter_eq_nil_iff]
          intro a ha
          simpa using fun h => hpx (le_trans h (hx a ha))
        have : ((x :: xs).filter (fun r => decide (minRel ≤ r.score))).length = 0 := by
          simp [List.filter_cons, hpx, hnil]
        omega

end EnhancedSearch

open EnhancedSearch in
/-- C1: with the relevance-threshold stage enabled, (i) only candidates are
returned, (ii) every candidate scoring at least `MIN_RELEVANCE_SCORE` is
kept, (iii) at least `min(top_k, 3)` results survive whenever that many
candidates exist — so a strict threshold never empties a nonempty candidate
list, (iv) when at least `min(top_k, 3)` candidates pass the threshold the
stage keeps exactly the passing ones (all chunks below the threshold are
dropped), and (v) the `min(top_k, 3)` best-scoring candidates are always
retained. -/
theorem C1_threshold_gate (minRel : ℚ) (topk : Nat) (l : List SearchResult) :
    (∀ r ∈ thresholdStage minRel topk l, r ∈ l) ∧
    (∀ r ∈ l, minRel ≤ r.score → r ∈ thresholdStage minRel topk l) ∧
    (min (min topk 3) l.length ≤ (thresholdStage minRel topk l).length) ∧
    (min topk 3 ≤ (l.filter (fun r => decide (minRel ≤ r.score))).length →
      thresholdStage minRel topk l = l.filter (fun r => decide (minRel ≤ r.score))) ∧
    (∀ r ∈ (sortDesc l).take (min topk 3), r ∈ thresholdStage minRel topk l) ∧
    (l ≠ [] → 1 ≤ min topk 3 → thresholdStage minRel topk l ≠ []) := by
  have hperm :
      ((sortDesc l).filter (fun r => decide (minRel ≤ r.score))).length =
        (l.filter (fun r => decide (minRel ≤ r.score))).length :=
    ((sortDesc_perm l).filter _).length_eq
  by_cases hm : min topk 3 ≤ (l.filter (fun r => decide (minRel ≤ r.score))).length
  · have hout : thresholdStage minRel topk l =
        l.filter (fun r => decide (minRel ≤ r.score)) := by
      unfold thresholdStage
      rw [if_pos hm]
    have hlenout : min (min topk 3) l.length ≤ (thresholdStage minRel topk l).length := by
      rw [hout]
      exact le_trans (min_le_left _ _) hm
    refine ⟨?_, ?_, hlenout, fun _ => hout, ?_, ?_⟩
    · intro r hr
      rw [hout] at hr
      exact List.mem_of_mem_filter hr
    · intro r hr hrs
      rw [hout]
      exact List.mem_filter.mpr ⟨hr, by simpa using hrs⟩
    · intro r hr
      have hpass : minRel ≤ r.score :=
        pass_of_mem_take (sortDesc_pairwise l) (by rw [hperm]; exact hm) r hr
      have hrl : r ∈ l := mem_sortDesc.mp (List.mem_of_mem_take hr)
      rw [hout]
      exact List.mem_filter.mpr ⟨hrl, by simpa using hpass⟩
    · intro hne h1
      have hl : 1 ≤ l.length := List.length_pos.mpr hne
      have h3 : 1 ≤ (thresholdStage minRel topk l).length :=
        le_trans (le_min h1 hl) hlenout
      exact List.length_pos.mp h3
  · push_neg at hm
    have hmax : max (min topk 3)
        (l.filter (fun r => decide (minRel ≤ r.score))).length = min topk 3 :=
      max_eq_left (le_of_lt hm)
    have hout : thresholdStage minRel topk l =
        (sortDesc l).take (min topk 3) := by
      unfold thresholdStage
      rw [if_neg (not_le.mpr hm), hmax]
    have hlenout : min (min topk 3) l.length ≤ (thresholdStage minRel topk l).length := by
      rw [hout, List.length_take, (sortDesc_perm l).length_eq]
    refine ⟨?_, ?_, hlenout, ?_, ?_, ?_⟩
    · intro r hr
      rw [hout] at hr
      exact mem_sortDesc.mp (List.mem_of_mem_take hr)
    · intro r hr hrs
      rw [hout]
      exact mem_take_of_pass_few (sortDesc_pairwise l)
        (by rw [hperm]; exact le_of_lt hm) r (mem_sortDesc.mpr hr) hrs
    · intro h
      exact absurd h (not_le.mpr hm)
    · intro r hr
      rw [hout]
      exact hr
    · intro hne h1
      have hl : 1 ≤ l.length := List.length_pos.mpr hne
      have h3 : 1 ≤ (thresholdStage minRel topk l).length :=
        le_trans (le_min h1 hl) hlenout
      exact List.length_pos.mp h3

/-- C1 witness: with the default threshold 0.5 and `top_k = 5`, the passing
candidate is kept and the gate output is nonempty. -/
theorem C1_threshold_gate_witness :
    Examples.rHigh ∈ EnhancedSearch.thresholdStage (1/2) 5 [Examples.rHigh, Examples.rLow] ∧
    EnhancedSearch.thresholdStage (1/2) 5 [Examples.rHigh, Examples.rLow] ≠ [] := by
  have h := C1_threshold_gate (1/2) 5 [Examples.rHigh, Examples.rLow]
  refine ⟨h.2.1 Examples.rHigh (by simp) ?_, h.2.2.2.2.2 (by simp) (by norm_num)⟩
  norm_num [Examples.rHigh]

-- ===========================================================================
-- C6: intent context score
-- ===========================================================================

open EnhancedSearch in
/-- C6 counterexample: for create intent with extracted subject "zzz" and a
chunk containing four dominant wrong-context keywords (and no right-context
keyword), the claim demands a score of -0.15, but the code returns 0 because
the subject does not occur in the chunk content (the `subject not in
content_lower` early return, which the claim omits). -/
theorem C6_counterexample_subject_guard :
    Examples.imCreate.intent = QueryIntent.create ∧
    2 ≤ wrongCount (lowerStr Examples.wrongCtx) ∧
    rightCount (lowerStr Examples.wrongCtx) < wrongCount (lowerStr Examples.wrongCtx) ∧
    calculateContextScore Examples.wrongCtx Examples.imCreate = 0 :=
  ⟨by decide, by decide, by decide, by decide⟩

open EnhancedSearch in
/-- C6 (amended): the intent context score always lies in
{-0.15, -0.10, 0, +0.10, +0.15}; it is 0 for any intent other than create;
for create intent it is 0 whenever the extracted subject is nonempty and
absent from the chunk content, and otherwise follows the dominance rule
(wrong ≥ 2 dominant → -0.15, right ≥ 2 dominant → +0.15, one-sided single
keyword → ±0.10, else 0); in the pipeline the nonzero modifier is added to
the dense score clamped to [0,1] (`intentUpdate`) before the re-sort, the
stage output being a permutation of the updated results. -/
theorem C6_intent_context_score (content : Str) (intent : IntentMatch)
    (l : List SearchResult) :
    (calculateContextScore content intent = -0.15 ∨
     calculateContextScore content intent = -0.10 ∨
     calculateContextScore content intent = 0 ∨
     calculateContextScore content intent = 0.10 ∨
     calculateContextScore content intent = 0.15) ∧
    (intent.intent ≠ QueryIntent.create → calculateContextScore content intent = 0) ∧
    (intent.intent = QueryIntent.create → lowerStr intent.subject ≠ [] →
      isSubstrOf (lowerStr intent.subject) (lowerStr content) = false →
      calculateContextScore content intent = 0) ∧
    (intent.intent = QueryIntent.create →
      (lowerStr intent.subject = [] ∨
       isSubstrOf (lowerStr intent.subject) (lowerStr content) = true) →
      ((rightCount (lowerStr content) < wrongCount (lowerStr content) ∧
          2 ≤ wrongCount (lowerStr content) →
        calculateContextScore content intent = -0.15) ∧
       (wrongCount (lowerStr content) < rightCount (lowerStr content) ∧
          2 ≤ rightCount (lowerStr content) →
        calculateContextScore content intent = 0.15) ∧
       (rightCount (lowerStr content) = 1 ∧ wrongCount (lowerStr content) = 0 →
        calculateContextScore content intent = 0.10) ∧
       (wrongCount (lowerStr content) = 1 ∧ rightCount (lowerStr content) = 0 →
        calculateContextScore content intent = -0.10) ∧
       (¬(rightCount (lowerStr content) < wrongCount (lowerStr content) ∧
            2 ≤ wrongCount (lowerStr content)) →
        ¬(wrongCount (lowerStr content) < rightCount (lowerStr content) ∧
            2 ≤ rightCount (lowerStr content)) →
        ¬(0 < rightCount (lowerStr content) ∧ wrongCount (lowerStr content) = 0) →
        ¬(0 < wrongCount (lowerStr content) ∧ rightCount (lowerStr content) = 0) →
        calculateContextScore content intent = 0))) ∧
    (intentStage intent l).Perm (l.map (intentUpdate intent)) := by
  refine ⟨?_, ?_, ?_, ?_, sortDesc_perm _⟩
  · simp only [calculateContextScore]
    split_ifs <;> norm_num
  · intro h
    simp [calculateContextScore, h]
  · intro hcr hsub hinf
    simp [calculateContextScore, hcr, hsub, hinf]
  · intro hcr hguard
    have hgf : ¬(lowerStr intent.subject ≠ [] ∧
        isSubstrOf (lowerStr intent.subject) (lowerStr content) = false) := by
      rcases hguard with h | h
      · simp [h]
      · simp [h]
    have hbase : calculateContextScore content intent =
        (if rightCount (lowerStr content) < wrongCount (lowerStr content) ∧
            2 ≤ wrongCount (lowerStr content) then (-0.15 : ℚ)
         else if wrongCount (lowerStr content) < rightCount (lowerStr content) ∧
            2 ≤ rightCount (lowerStr content) then 0.15
         else if 0 < rightCount (lowerStr content) ∧
            wrongCount (lowerStr content) = 0 then 0.10
         else if 0 < wrongCount (lowerStr content) ∧
            rightCount (lowerStr content) = 0 then -0.10
         else 0) := by
      simp only [calculateContextScore, hcr]
      rw [if_neg (by simp), if_neg hgf]
    rw [hbase]
    refine ⟨?_, ?_, ?_, ?_, ?_⟩
    · intro h
      rw [if_pos h]
    · intro h
      rw [if_neg (by omega), if_pos h]
    · intro h
      rw [if_neg (by omega), if_neg (by omega), if_pos (by omega)]
    · intro h
      rw [if_neg (by omega), if_neg (by omega), if_neg (by omega), if_pos (by omega)]
    · intro h1 h2 h3 h4
      rw [if_neg h1, if_neg h2, if_neg h3, if_neg h4]

/-- C6 witness: the amended theorem applied to a create intent with empty
subject and the four-wrong-keyword chunk yields the -0.15 penalty. -/
theorem C6_intent_context_score_witness :
    EnhancedSearch.calculateContextScore Examples.wrongCtx Examples.imCreateEmpty = -0.15 :=
  ((C6_intent_context_score Examples.wrongCtx Examples.imCreateEmpty []).2.2.2.1
    (by decide) (Or.inl (by decide))).1 ⟨by decide, by decide⟩

-- ===========================================================================
-- C3: returned ≤ top_k and descending order
-- ===========================================================================

namespace EnhancedSearch

lemma thresholdStage_pairwise {minRel : ℚ} {topk : Nat} {l : List SearchResult}
    (h : l.Pairwise scoreGE) : (thresholdStage minRel topk l).Pairwise scoreGE := by
  by_cases hm : min topk 3 ≤ (l.filter (fun r => decide (minRel ≤ r.score))).length
  · have e : thresholdStage minRel topk l =
        l.filter (fun r => decide (minRel ≤ r.score)) := by
      unfold thresholdStage
      rw [if_pos hm]
    rw [e]
    exact pairwise_filter _ h
  · have e : thresholdStage minRel topk l = (sortDesc l).take
        (max (min topk 3) (l.filter (fun r => decide (minRel ≤ r.score))).length) := by
      unfold thresholdStage
      rw [if_neg hm]
    rw [e]
    exact pairwise_take _ (sortDesc_pairwise l)

lemma simpleRerank_pairwise (q : Str) (l : List SearchResult) (k : Nat) :
    (simpleRerank q l k).Pairwise scoreGE := by
  unfold simpleRerank
  split
  · exact List.Pairwise.nil
  · exact pairwise_take _ (sortDesc_pairwise _)

lemma llmRerank_pairwise (o : Str → Str → ℚ) (q : Str) (l : List SearchResult) (k : Nat) :
    (llmRerank o q l k).Pairwise scoreGE := by
  unfold llmRerank
  split
  · exact List.Pairwise.nil
  · split
    · rename_i h
      exact pairwise_of_length_le_one h
    · exact pairwise_take _ (sortDesc_pairwise _)

lemma hybridRerank_pairwise (o : Str → Str → ℚ) (m : Nat) (q : Str)
    (l : List SearchResult) (k : Nat) : (hybridRerank o m q l k).Pairwise scoreGE := by
  unfold hybridRerank
  split
  · exact List.Pairwise.nil
  · show List.Pairwise scoreGE (List.take k
      (if 1 < (simpleRerank q l m).length then llmRerank o q (simpleRerank q l m) k
       else simpleRerank q l m))
    by_cases h1 : 1 < (simpleRerank q l m).length
    · rw [if_pos h1]
      exact pairwise_take _ (llmRerank_pairwise _ _ _ _)
    · rw [if_neg h1]
      exact pairwise_take _ (pairwise_of_length_le_one (by omega))

lemma runReranker_pairwise (rk : RerankerKind) (q : Str) (l : List SearchResult) (k : Nat) :
    (runReranker rk q l k).Pairwise scoreGE := by
  cases rk with
  | simple => exact simpleRerank_pairwise q l k
  | llm o => exact llmRerank_pairwise o q l k
  | hybrid o m => exact hybridRerank_pairwise o m q l k

lemma gateBm25_pairwise {fl : SearchFlags} {cfg : SearchConfig} {bm25 : Str → ℚ}
    {st : List Str} {l : List SearchResult} (h : l.Pairwise scoreGE) :
    (gateBm25 fl cfg bm25 st l).Pairwise scoreGE := by
  unfold gateBm25
  split
  · exact sortDesc_pairwise _
  · exact h

lemma gateIntent_pairwise {fl : SearchFlags} {intent : IntentMatch}
    {l : List SearchResult} (h : l.Pairwise scoreGE) :
    (gateIntent fl intent l).Pairwise scoreGE := by
  unfold gateIntent
  split
  · exact sortDesc_pairwise _
  · exact h

lemma gateThreshold_pairwise {fl : SearchFlags} {cfg : SearchConfig} {topk : Nat}
    {l : List SearchResult} (h : l.Pairwise scoreGE) :
    (gateThreshold fl cfg topk l).Pairwise scoreGE := by
  unfold gateThreshold
  split
  · exact thresholdStage_pairwise h
  · exact h

lemma gateMmr_eq_of_not {fl : SearchFlags} {cfg : SearchConfig} {topk : Nat}
    {l : List SearchResult} (h : fl.mmr = false) : gateMmr fl cfg topk l = l := by
  unfold gateMmr
  rw [if_neg]
  simp [h]

lemma gateRerank_pairwise_true {fl : SearchFlags} {rk : RerankerKind} {q : Str}
    {topk : Nat} (h : fl.reranking = true) (l : List SearchResult) :
    (gateRerank fl rk q topk l).Pairwise scoreGE := by
  unfold gateRerank
  split
  · exact runReranker_pairwise _ _ _ _
  · rename_i hc
    have : ¬ 1 < l.length := fun hl => hc ⟨h, hl⟩
    exact pairwise_of_length_le_one (by omega)

lemma gateRerank_pairwise_of {fl : SearchFlags} {rk : RerankerKind} {q : Str}
    {topk : Nat} {l : List SearchResult} (h : l.Pairwise scoreGE) :
    (gateRerank fl rk q topk l).Pairwise scoreGE := by
  unfold gateRerank
  split
  · exact runReranker_pairwise _ _ _ _
  · exact h

end EnhancedSearch

open EnhancedSearch in
/-- C3 counterexample: with MMR enabled (and reranking disabled), a concrete
run of the search pipeline returns `[rr1, rr4, rr2]` with scores
1, 0.8, 0.9 — not ordered by final score descending, because `_apply_mmr`
emits results in selection order without re-sorting.  The claim's "ordered
by final score descending, including when ... MMR ... enabled" is false. -/
theorem C3_counterexample_mmr_order :
    (enhancedSearch Examples.flMmrOnly Examples.cfg0 RerankerKind.simple
        Examples.imUnknown [] (fun _ => 0) [] 3
        [Examples.rr1, Examples.rr2, Examples.rr4, Examples.rr3]).textResults =
      [Examples.rr1, Examples.rr4, Examples.rr2] ∧
    ¬ (enhancedSearch Examples.flMmrOnly Examples.cfg0 RerankerKind.simple
        Examples.imUnknown [] (fun _ => 0) [] 3
        [Examples.rr1, Examples.rr2, Examples.rr4, Examples.rr3]).textResults.Pairwise
        scoreGE := by
  have e_ab : (wordsOf Examples.cAB).isEmpty = false := by decide
  have e_xy : (wordsOf Examples.cXY).isEmpty = false := by decide
  have i_ab_ab : interLen (wordsOf Examples.cAB) (wordsOf Examples.cAB) = 2 := by decide
  have u_ab_ab : unionLen (wordsOf Examples.cAB) (wordsOf Examples.cAB) = 2 := by decide
  have i_xy_ab : interLen (wordsOf Examples.cXY) (wordsOf Examples.cAB) = 0 := by decide
  have u_xy_ab : unionLen (wordsOf Examples.cXY) (wordsOf Examples.cAB) = 4 := by decide
  have i_ab_xy : interLen (wordsOf Examples.cAB) (wordsOf Examples.cXY) = 0 := by decide
  have u_ab_xy : unionLen (wordsOf Examples.cAB) (wordsOf Examples.cXY) = 4 := by decide
  have i_xy_xy : interLen (wordsOf Examples.cXY) (wordsOf Examples.cXY) = 2 := by decide
  have u_xy_xy : unionLen (wordsOf Examples.cXY) (wordsOf Examples.cXY) = 2 := by decide
  have j_ab_ab : jaccard Examples.cAB Examples.cAB = 1 := by
    norm_num [jaccard, e_ab, i_ab_ab, u_ab_ab]
  have j_xy_ab : jaccard Examples.cXY Examples.cAB = 0 := by
    norm_num [jaccard, e_xy, i_xy_ab, u_xy_ab]
  have j_ab_xy : jaccard Examples.cAB Examples.cXY = 0 := by
    norm_num [jaccard, e_ab, i_ab_xy, u_ab_xy]
  have j_xy_xy : jaccard Examples.cXY Examples.cXY = 1 := by
    norm_num [jaccard, e_xy, i_xy_xy, u_xy_xy]
  have pick1 : pickBest (7/10) [Examples.rr1] [Examples.rr2, Examples.rr4, Examples.rr3] =
      some Examples.rr4 := by
    norm_num [pickBest, mmrScore, maxSimTo, maxQ, Examples.rr1, Examples.rr2,
      Examples.rr3, Examples.rr4, j_ab_ab, j_xy_ab]
  have pick2 : pickBest (7/10) [Examples.rr1, Examples.rr4]
      [Examples.rr2, Examples.rr3] = some Examples.rr2 := by
    norm_num [pickBest, mmrScore, maxSimTo, maxQ, Examples.rr1, Examples.rr2,
      Examples.rr3, Examples.rr4, j_ab_ab, j_ab_xy, j_xy_ab, j_xy_xy]
  have er1 : [Examples.rr2, Examples.rr4, Examples.rr3].erase Examples.rr4 =
      [Examples.rr2, Examples.rr3] := by
    norm_num [List.erase_cons, Examples.rr2, Examples.rr3, Examples.rr4]
  have er2 : [Examples.rr2, Examples.rr3].erase Examples.rr2 = [Examples.rr3] := by
    norm_num [List.erase_cons, Examples.rr2, Examples.rr3]
  have hmmr : applyMmr (7/10) 3
      [Examples.rr1, Examples.rr2, Examples.rr4, Examples.rr3] =
      [Examples.rr1, Examples.rr4, Examples.rr2] := by
    norm_num [applyMmr, mmrLoop, pick1, pick2, er1, er2]
  have hsort : sortDesc [Examples.rr1, Examples.rr2, Examples.rr4, Examples.rr3] =
      [Examples.rr1, Examples.rr2, Examples.rr4, Examples.rr3] := by
    norm_num [sortDesc, insertDesc, Examples.rr1, Examples.rr2, Examples.rr3,
      Examples.rr4]
  have hrun : (enhancedSearch Examples.flMmrOnly Examples.cfg0 RerankerKind.simple
      Examples.imUnknown [] (fun _ => 0) [] 3
      [Examples.rr1, Examples.rr2, Examples.rr4, Examples.rr3]).textResults =
      [Examples.rr1, Examples.rr4, Examples.rr2] := by
    norm_num [enhancedSearch, searchPipeline, pipelineFinal, vectorStoreTopK,
      fetchMultiplier, gateBm25, gateIntent, gateThreshold, gateMmr, gateRerank,
      hsort, Examples.flMmrOnly, Examples.cfg0, hmmr]
    simp
  refine ⟨hrun, ?_⟩
  rw [hrun]
  intro h
  have h42 : scoreGE Examples.rr4 Examples.rr2 :=
    (List.pairwise_cons.mp (List.pairwise_cons.mp h).2).1 Examples.rr2 (by simp)
  norm_num [scoreGE, Examples.rr2, Examples.rr4] at h42

open EnhancedSearch in
/-- C3 (amended): for every search, `returned ≤ top_k` and `returned` equals
the number of text results; the text results are ordered by final score
descending whenever MMR is disabled or reranking is enabled (every reranker
re-sorts by the final score) — with MMR as the last reordering stage the
output is in MMR selection order instead (see the counterexample). -/
theorem C3_returned_le_topk_sorted (fl : SearchFlags) (cfg : SearchConfig)
    (rk : RerankerKind) (intent : IntentMatch) (searchTerms : List Str)
    (bm25 : Str → ℚ) (query : Str) (topk : Nat) (sims : List SearchResult) :
    (enhancedSearch fl cfg rk intent searchTerms bm25 query topk sims).returned ≤ topk ∧
    (enhancedSearch fl cfg rk intent searchTerms bm25 query topk sims).returned =
      (enhancedSearch fl cfg rk intent searchTerms bm25 query topk sims).textResults.length ∧
    ((fl.mmr = false ∨ fl.reranking = true) →
      (enhancedSearch fl cfg rk intent searchTerms bm25 query topk
        sims).textResults.Pairwise scoreGE) := by
  unfold enhancedSearch searchPipeline
  split
  · exact ⟨Nat.zero_le _, rfl, fun _ => List.Pairwise.nil⟩
  · refine ⟨?_, rfl, ?_⟩
    · show (pipelineFinal _ _ _ _ _ _ _ _ _).length ≤ topk
      unfold pipelineFinal
      rw [List.length_take]
      exact min_le_left _ _
    · intro hc
      show (pipelineFinal _ _ _ _ _ _ _ _ _).Pairwise scoreGE
      unfold pipelineFinal
      apply pairwise_take
      rcases hc with hm | hr
      · apply gateRerank_pairwise_of
        rw [gateMmr_eq_of_not hm]
        exact gateThreshold_pairwise (gateIntent_pairwise (gateBm25_pairwise
          (pairwise_take _ (sortDesc_pairwise _))))
      · exact gateRerank_pairwise_true hr _

/-- C3 witness: the amended theorem applied to a concrete run with all
optional stages disabled. -/
theorem C3_returned_le_topk_sorted_witness :
    (EnhancedSearch.enhancedSearch Examples.flNone Examples.cfg0
        EnhancedSearch.RerankerKind.simple Examples.imUnknown [] (fun _ => 0) [] 3
        [Examples.rr1, Examples.rr2, Examples.rr4, Examples.rr3]).returned ≤ 3 ∧
    (EnhancedSearch.enhancedSearch Examples.flNone Examples.cfg0
        EnhancedSearch.RerankerKind.simple Examples.imUnknown [] (fun _ => 0) [] 3
        [Examples.rr1, Examples.rr2, Examples.rr4,
          Examples.rr3]).textResults.Pairwise EnhancedSearch.scoreGE :=
  ⟨(C3_returned_le_topk_sorted Examples.flNone Examples.cfg0 _ _ _ _ _ _ _).1,
   (C3_returned_le_topk_sorted Examples.flNone Examples.cfg0 _ _ _ _ _ _ _).2.2
     (Or.inl rfl)⟩

-- ===========================================================================
-- C5: chunker error behaviour
-- ===========================================================================

/-- C5 counterexample: when the LangChain recursive splitter raises (here on
the word "hello"), `chunk_text` has no handler and the exception propagates
to the caller; it does not fall back to the size-bounded fixed splitter, so
"never fails fatally" is false. -/
theorem C5_counterexample_splitter_error :
    Chunker.chunkText true Examples.envBoom Examples.fbWhole Examples.detGeneral
      "hello".toList none true = Except.error "boom".toList := rfl

open Chunker in
/-- C5 (amended): empty or whitespace-only input returns the empty chunk
list without raising; the size-bounded fixed splitter (`_chunk_fallback`) is
used only when LangChain is unavailable — an import-time condition, not an
error handler; within LangChain chunking only a failure of the
markdown-header pre-split is caught, falling back to the standard recursive
splitter, whose own errors propagate (see the counterexample). -/
theorem C5_chunker_error_behavior (available : Bool) (env : LangchainEnv)
    (fallbackSplit : Str → ChunkContentType → List Str)
    (detect : Str → ChunkContentType) (text : Str)
    (ctypeOpt : Option ChunkContentType) (preserve : Bool) :
    (trimStr text = [] →
      chunkText available env fallbackSplit detect text ctypeOpt preserve =
        Except.ok []) ∧
    (available = false → trimStr text ≠ [] →
      chunkText available env fallbackSplit detect text ctypeOpt preserve =
        Except.ok (buildChunkObjects
          (fallbackSplit text (ctypeOpt.getD (detect text))))) ∧
    (∀ e cs, available = true → trimStr text ≠ [] →
      ctypeOpt = some ChunkContentType.documentation → preserve = true →
      env.headerSplit (env.preprocess text) = Except.error e →
      env.splitText ChunkContentType.documentation (env.preprocess text) =
        Except.ok cs →
      chunkText available env fallbackSplit detect text ctypeOpt preserve =
        Except.ok (buildChunkObjects cs)) := by
  refine ⟨?_, ?_, ?_⟩
  · intro h
    unfold chunkText
    rw [if_pos h]
  · intro ha hne
    subst ha
    unfold chunkText
    rw [if_neg hne]
    simp
  · intro e cs ha hne hct hpres hhdr hsplit
    subst ha
    subst hpres
    have hp : headerPath env (env.preprocess text) = Except.error e := by
      unfold headerPath
      rw [hhdr]
      rfl
    have hcw : chunkWithLangchain env ChunkContentType.documentation true text =
        Except.ok cs := by
      unfold chunkWithLangchain
      rw [if_pos ⟨rfl, rfl⟩, hp, hsplit]
    unfold chunkText
    rw [if_neg hne]
    simp [hct, hcw]
    rfl

/-- C5 witness: the amended theorem applied to whitespace-only input, to the
fallback path, and to a failing header split with a succeeding recursive
split. -/
theorem C5_chunker_error_behavior_witness :
    Chunker.chunkText true Examples.envOk Examples.fbWhole Examples.detGeneral
      "   ".toList none true = Except.ok [] ∧
    Chunker.chunkText false Examples.envOk Examples.fbWhole Examples.detGeneral
      "hello".toList none true =
      Except.ok (Chunker.buildChunkObjects ["hello".toList]) ∧
    Chunker.chunkText true Examples.envOk Examples.fbWhole Examples.detGeneral
      "doc".toList (some Chunker.ChunkContentType.documentation) true =
      Except.ok (Chunker.buildChunkObjects ["doc".toList]) := by
  refine ⟨?_, ?_, ?_⟩
  · exact (C5_chunker_error_behavior true Examples.envOk Examples.fbWhole
      Examples.detGeneral "   ".toList none true).1 (by decide)
  · rw [(C5_chunker_error_behavior false Examples.envOk Examples.fbWhole
      Examples.detGeneral "hello".toList none true).2.1 rfl (by decide)]
    rfl
  · exact (C5_chunker_error_behavior true Examples.envOk Examples.fbWhole
      Examples.detGeneral "doc".toList (some Chunker.ChunkContentType.documentation)
      true).2.2 "hdr".toList ["doc".toList] rfl (by decide) rfl rfl rfl rfl

-- ===========================================================================
-- C8: store_document chunk/vector correspondence
-- ===========================================================================

namespace VectorStore

lemma vectorKey_inj (kb : Str) {a b : Str} : vectorKey kb a = vectorKey kb b ↔ a = b := by
  unfold vectorKey
  constructor
  · intro h
    exact List.append_cancel_left h
  · rintro rfl
    rfl

lemma processChunks_map_ids (docId kb : Str) (embeddings : List EmbeddingIn) :
    ∀ chunks : List ChunkIn,
      ((processChunks docId kb embeddings chunks).1.map (fun row => row.chunk_id) =
        (processChunks docId kb embeddings chunks).2.map (fun w => w.data.chunk_id)) := by
  intro chunks
  induction chunks with
  | nil => rfl
  | cons x xs ih =>
    cases h : embeddingLookup embeddings x.chunk_id with
    | none => simpa [processChunks, h] using ih
    | some e => simp [processChunks, h, mkRow, mkWrite, ih]

lemma processChunks_countP_zero (docId kb : Str) (embeddings : List EmbeddingIn)
    (cid : Str) :
    ∀ chunks : List ChunkIn, cid ∉ chunks.map (fun c => c.chunk_id) →
      (processChunks docId kb embeddings chunks).1.countP
        (fun row => row.chunk_id == cid) = 0 ∧
      (processChunks docId kb embeddings chunks).2.countP
        (fun w => w.key == vectorKey kb cid) = 0 := by
  intro chunks
  induction chunks with
  | nil => intro _; exact ⟨rfl, rfl⟩
  | cons x xs ih =>
    intro hmem
    have hx : ¬ x.chunk_id = cid := fun h => hmem (by simp [h])
    have hxs : cid ∉ xs.map (fun c => c.chunk_id) := fun h => hmem (by simp [h])
    have hkey : ¬ vectorKey kb x.chunk_id = vectorKey kb cid :=
      fun h => hx ((vectorKey_inj kb).mp h)
    cases h : embeddingLookup embeddings x.chunk_id with
    | none => simpa [processChunks, h] using ih hxs
    | some e =>
      have := ih hxs
      simp [processChunks, h, List.countP_cons, mkRow, mkWrite, hx, hkey, this.1, this.2]

lemma processChunks_countP (docId kb : Str) (embeddings : List EmbeddingIn) :
    ∀ chunks : List ChunkIn, (chunks.map (fun c => c.chunk_id)).Nodup →
      ∀ c ∈ chunks,
        ((processChunks docId kb embeddings chunks).1.countP
            (fun row => row.chunk_id == c.chunk_id) =
          if (embeddingLookup embeddings c.chunk_id).isSome then 1 else 0) ∧
        ((processChunks docId kb embeddings chunks).2.countP
            (fun w => w.key == vectorKey kb c.chunk_id) =
          if (embeddingLookup embeddings c.chunk_id).isSome then 1 else 0) := by
  intro chunks
  induction chunks with
  | nil => intro _ c hc; simp at hc
  | cons x xs ih =>
    intro hnd c hc
    rw [List.map_cons, List.nodup_cons] at hnd
    obtain ⟨hx, hxs⟩ := hnd
    rcases List.mem_cons.mp hc with rfl | hc
    · cases h : embeddingLookup embeddings c.chunk_id with
      | none =>
        have hz := processChunks_countP_zero docId kb embeddings c.chunk_id xs hx
        simp [processChunks, h, hz.1, hz.2]
      | some e =>
        have hz := processChunks_countP_zero docId kb embeddings c.chunk_id xs hx
        simp [processChunks, h, List.countP_cons, mkRow, mkWrite, hz.1, hz.2]
    · have hne : ¬ x.chunk_id = c.chunk_id := by
        intro hcontra
        exact hx (hcontra ▸ List.mem_map_of_mem (fun c => c.chunk_id) hc)
      have hkey : ¬ vectorKey kb x.chunk_id = vectorKey kb c.chunk_id :=
        fun h => hne ((vectorKey_inj kb).mp h)
      have := ih hxs c hc
      cases h : embeddingLookup embeddings x.chunk_id with
      | none => simpa [processChunks, h] using this
      | some e =>
        simp [processChunks, h, List.countP_cons, mkRow, mkWrite, hne, hkey,
          this.1, this.2]

end VectorStore

open VectorStore in
/-- C8: in `store_document`, assuming pairwise-distinct chunk ids, a chunk
whose id has no entry in the embeddings list gets neither a catalog row nor
a Redis vector key; a chunk with an embedding gets exactly one catalog row
and exactly one write under `vector:{kb_id}:{chunk_id}`; and the persisted
rows and vector writes correspond one-to-one (equal chunk-id sequences). -/
theorem C8_store_document_correspondence (docId kb : Str) (chunks : List ChunkIn)
    (embeddings : List EmbeddingIn)
    (hnodup : (chunks.map (fun c => c.chunk_id)).Nodup) :
    (∀ c ∈ chunks, embeddingLookup embeddings c.chunk_id = none →
      (storeDocument docId kb chunks embeddings).1.countP
          (fun row => row.chunk_id == c.chunk_id) = 0 ∧
      (storeDocument docId kb chunks embeddings).2.countP
          (fun w => w.key == vectorKey kb c.chunk_id) = 0) ∧
    (∀ c ∈ chunks, (embeddingLookup embeddings c.chunk_id).isSome →
      (storeDocument docId kb chunks embeddings).1.countP
          (fun row => row.chunk_id == c.chunk_id) = 1 ∧
      (storeDocument docId kb chunks embeddings).2.countP
          (fun w => w.key == vectorKey kb c.chunk_id) = 1) ∧
    ((storeDocument docId kb chunks embeddings).1.map (fun row => row.chunk_id) =
      (storeDocument docId kb chunks embeddings).2.map (fun w => w.data.chunk_id)) := by
  refine ⟨?_, ?_, processChunks_map_ids docId kb embeddings chunks⟩
  · intro c hc hnone
    have := processChunks_countP docId kb embeddings chunks hnodup c hc
    rw [hnone] at this
    simpa using this
  · intro c hc hsome
    have := processChunks_countP docId kb embeddings chunks hnodup c hc
    rw [if_pos hsome] at this
    exact this

/-- C8 witness: the theorem applied to two chunks of which only "a" has an
embedding: "b" produces no row and no vector write, "a" exactly one of
each. -/
theorem C8_store_document_correspondence_witness :
    ((VectorStore.storeDocument "d".toList "kb".toList
        [Examples.chunkA, Examples.chunkB] Examples.embsA).1.countP
      (fun row => row.chunk_id == Examples.chunkB.chunk_id) = 0) ∧
    ((VectorStore.storeDocument "d".toList "kb".toList
        [Examples.chunkA, Examples.chunkB] Examples.embsA).1.countP
      (fun row => row.chunk_id == Examples.chunkA.chunk_id) = 1) ∧
    ((VectorStore.storeDocument "d".toList "kb".toList
        [Examples.chunkA, Examples.chunkB] Examples.embsA).2.countP
      (fun w => w.key == VectorStore.vectorKey "kb".toList
        Examples.chunkA.chunk_id) = 1) := by
  have h := C8_store_document_correspondence "d".toList "kb".toList
    [Examples.chunkA, Examples.chunkB] Examples.embsA (by decide)
  refine ⟨(h.1 Examples.chunkB (by simp) (by decide)).1,
          (h.2.1 Examples.chunkA (by simp) (by decide)).1,
          (h.2.1 Examples.chunkA (by simp) (by decide)).2⟩

-- ===========================================================================
-- Semantic cache: scan lemmas and the hit characterization
-- ===========================================================================

namespace SemanticCache

lemma scanStep_acc_le (f : Faults) (cos : List ℚ → List ℚ → ℚ) (store : Store)
    (now : ℚ) (qemb : List ℚ) (acc : ℚ × Option (Str × CacheEntry)) (key : Str) :
    acc.1 ≤ (scanStep f cos store now qemb acc key).1 := by
  unfold scanStep
  split
  · exact le_refl _
  · split
    · exact le_refl _
    · dsimp only
      split
      · rename_i h
        exact le_of_lt h
      · exact le_refl _

lemma scanBest_acc_le (f : Faults) (cos : List ℚ → List ℚ → ℚ) (store : Store)
    (now : ℚ) (qemb : List ℚ) :
    ∀ (keys : List Str) (acc : ℚ × Option (Str × CacheEntry)),
      acc.1 ≤ (keys.foldl (scanStep f cos store now qemb) acc).1 := by
  intro keys
  induction keys with
  | nil => intro acc; exact le_refl _
  | cons k ks ih =>
    intro acc
    exact le_trans (scanStep_acc_le f cos store now qemb acc k)
      (ih (scanStep f cos store now qemb acc k))

lemma scanBest_dominates (f : Faults) (cos : List ℚ → List ℚ → ℚ) (store : Store)
    (now : ℚ) (qemb : List ℚ) :
    ∀ (keys : List Str) (acc : ℚ × Option (Str × CacheEntry)),
      ∀ key ∈ keys, f.entryGet key = false →
        ∀ s, lookupStored store now key = some s →
          cos qemb s.entry.embedding ≤ (keys.foldl (scanStep f cos store now qemb) acc).1 := by
  intro keys
  induction keys with
  | nil => intro acc key hk; simp at hk
  | cons k ks ih =>
    intro acc key hk hf s hs
    rcases List.mem_cons.mp hk with rfl | hk
    · have hstep : cos qemb s.entry.embedding ≤ (scanStep f cos store now qemb acc key).1 := by
        unfold scanStep
        rw [if_neg (by simp [hf]), hs]
        dsimp only
        split
        · exact le_refl _
        · rename_i h
          exact le_of_not_lt h
      exact le_trans hstep (scanBest_acc_le f cos store now qemb ks _)
    · exact ih (scanStep f cos store now qemb acc k) key hk hf s hs

lemma scanBest_none_inv (f : Faults) (cos : List ℚ → List ℚ → ℚ) (store : Store)
    (now : ℚ) (qemb : List ℚ) :
    ∀ (keys : List Str) (acc : ℚ × Option (Str × CacheEntry)),
      (acc.2 = none → acc.1 = 0) →
      ((keys.foldl (scanStep f cos store now qemb) acc).2 = none →
        (keys.foldl (scanStep f cos store now qemb) acc).1 = 0) := by
  intro keys
  induction keys with
  | nil => intro acc h; exact h
  | cons k ks ih =>
    intro acc h
    apply ih
    unfold scanStep
    split
    · exact h
    · split
      · exact h
      · dsimp only
        split
        · intro hcontra
          simp at hcontra
        · exact h

lemma scanBest_sound (f : Faults) (cos : List ℚ → List ℚ → ℚ) (store : Store)
    (now : ℚ) (qemb : List ℚ) :
    ∀ (keys : List Str) (acc : ℚ × Option (Str × CacheEntry)),
      keys.foldl (scanStep f cos store now qemb) acc = acc ∨
      ∃ key ∈ keys, ∃ s : Stored, lookupStored store now key = some s ∧
        keys.foldl (scanStep f cos store now qemb) acc =
          (cos qemb s.entry.embedding, some (key, s.entry)) := by
  intro keys
  induction keys with
  | nil => intro acc; exact Or.inl rfl
  | cons k ks ih =>
    intro acc
    have hstep : scanStep f cos store now qemb acc k = acc ∨
        ∃ s : Stored, lookupStored store now k = some s ∧
          scanStep f cos store now qemb acc k =
            (cos qemb s.entry.embedding, some (k, s.entry)) := by
      unfold scanStep
      split
      · exact Or.inl rfl
      · rcases hl : lookupStored store now k with _ | s
        · exact Or.inl rfl
        · dsimp only
          split
          · exact Or.inr ⟨s, rfl, rfl⟩
          · exact Or.inl rfl
    rcases ih (scanStep f cos store now qemb acc k) with hfold | ⟨key, hk, s, hs, hfold⟩
    · rcases hstep with he | ⟨s, hs, he⟩
      · refine Or.inl ?_
        rw [List.foldl_cons, he]
        rw [he] at hfold
        exact hfold
      · refine Or.inr ⟨k, List.mem_cons_self _ _, s, hs, ?_⟩
        rw [List.foldl_cons, hfold]
        exact he
    · refine Or.inr ⟨key, List.mem_cons_of_mem _ hk, s, hs, ?_⟩
      rw [List.foldl_cons]
      exact hfold

lemma lookupStored_of_mem {store : Store} {now : ℚ}
    (hnodup : (store.entries.map (fun s => s.key)).Nodup) {s : Stored}
    (hs : s ∈ store.entries) (hexp : now < s.expiresAt) :
    lookupStored store now s.key = some s := by
  unfold lookupStored
  have hsome : (store.entries.find?
      (fun t => t.key == s.key && decide (now < t.expiresAt))).isSome :=
    List.find?_isSome.mpr ⟨s, hs, by simp [hexp]⟩
  obtain ⟨s', hfind⟩ := Option.isSome_iff_exists.mp hsome
  have hps' := List.find?_some hfind
  have hmem' := List.mem_of_find?_eq_some hfind
  have hkey : s'.key = s.key := by
    have := (Bool.and_eq_true _ _).mp hps'
    exact eq_of_beq this.1
  have hss : s' = s := List.inj_on_of_nodup_map hnodup hmem' hs hkey
  rw [hfind, hss]

/-- Full characterization of `get_cached_result` on a failure-free run with
a present index and duplicate-free keys: the hit condition, the refresh the
hit performs, and the unchanged store on a miss.  Shared by the C2 and C9
theorems. -/
lemma getCachedResult_spec (cos : List ℚ → List ℚ → ℚ) (threshold ttl : ℚ)
    (store : Store) (now : ℚ) (qemb : List ℚ) (stype : Str)
    (idx : List IndexEntry) (hidx : store.index = some idx)
    (hnodup : (store.entries.map (fun s => s.key)).Nodup) (hthr : 0 < threshold) :
    (((getCachedResult noFaults cos threshold ttl store now qemb stype).1.isSome = true) ↔
      ∃ ie ∈ idx, ie.search_type = stype ∧ ∃ s ∈ store.entries,
        s.key = ie.key ∧ now < s.expiresAt ∧
        threshold ≤ cos qemb s.entry.embedding) ∧
    (∀ h, (getCachedResult noFaults cos threshold ttl store now qemb stype).1 = some h →
      ∃ s ∈ store.entries, now < s.expiresAt ∧
        threshold ≤ cos qemb s.entry.embedding ∧
        h.cache_similarity = cos qemb s.entry.embedding ∧
        h.access_count = s.entry.access_count + 1 ∧
        h.original_query = s.entry.query ∧
        h.results = s.entry.results ∧
        (getCachedResult noFaults cos threshold ttl store now qemb stype).2.entries =
          store.entries.map (refreshStored now ttl s.key)) ∧
    ((getCachedResult noFaults cos threshold ttl store now qemb stype).1 = none →
      (getCachedResult noFaults cos threshold ttl store now qemb stype).2 = store) := by
  have hmemkeys : ∀ {ie : IndexEntry}, ie ∈ idx → ie.search_type = stype →
      ie.key ∈ (idx.filter (fun e => e.search_type == stype)).map (fun e => e.key) := by
    intro ie hie hst
    exact List.mem_map_of_mem _ (List.mem_filter.mpr ⟨hie, by simp [hst]⟩)
  have hrhs_best : (∃ ie ∈ idx, ie.search_type = stype ∧ ∃ s ∈ store.entries,
      s.key = ie.key ∧ now < s.expiresAt ∧ threshold ≤ cos qemb s.entry.embedding) →
      threshold ≤ (((idx.filter (fun e => e.search_type == stype)).map
        (fun e => e.key)).foldl (scanStep noFaults cos store now qemb) (0, none)).1 := by
    rintro ⟨ie, hie, hst, s, hs, hkey, hexp, hcos⟩
    have hlk : lookupStored store now ie.key = some s := by
      rw [← hkey]
      exact lookupStored_of_mem hnodup hs hexp
    exact le_trans hcos (scanBest_dominates noFaults cos store now qemb _ _ ie.key
      (hmemkeys hie hst) rfl s hlk)
  have hsb : scanBest noFaults cos store now qemb
      ((idx.filter (fun e => e.search_type == stype)).map (fun e => e.key)) =
      ((idx.filter (fun e => e.search_type == stype)).map (fun e => e.key)).foldl
        (scanStep noFaults cos store now qemb) (0, none) := rfl
  unfold getCachedResult
  rw [if_neg (by simp [noFaults]), hidx]
  dsimp only
  rw [hsb]
  by_cases hkeys : (idx.filter (fun e => e.search_type == stype)).map (fun e => e.key) = []
  · rw [if_pos hkeys]
    refine ⟨⟨by simp, ?_⟩, by simp, fun _ => rfl⟩
    rintro ⟨ie, hie, hst, -⟩
    have := hmemkeys hie hst
    rw [hkeys] at this
    simp at this
  · rw [if_neg hkeys]
    rcases hscan : ((idx.filter (fun e => e.search_type == stype)).map
        (fun e => e.key)).foldl (scanStep noFaults cos store now qemb) (0, none) with
      ⟨best, bm⟩
    rcases bm with _ | ⟨bkey, bentry⟩
    · have hz : best = 0 := by
        have := scanBest_none_inv noFaults cos store now qemb
          ((idx.filter (fun e => e.search_type == stype)).map (fun e => e.key))
          (0, none) (fun _ => rfl)
        rw [hscan] at this
        exact this rfl
      simp only [hscan]
      refine ⟨⟨fun hcontra => by simp at hcontra, fun hrhs => ?_⟩,
              fun h hh => by simp at hh, by simp⟩
      have := hrhs_best hrhs
      rw [hscan, hz] at this
      exact absurd (lt_of_lt_of_le hthr this) (lt_irrefl 0)
    · rcases scanBest_sound noFaults cos store now qemb
          ((idx.filter (fun e => e.search_type == stype)).map (fun e => e.key))
          (0, none) with hid | ⟨key, hkmem, s, hlk, heq⟩
      · rw [hscan] at hid
        simp at hid
      · rw [hscan] at heq
        have hbest : best = cos qemb s.entry.embedding := by
          have := congrArg Prod.fst heq
          simpa using this
        have hbk : bkey = key ∧ bentry = s.entry := by
          have := congrArg Prod.snd heq
          simp at this
          exact this
        rcases hbk with ⟨rfl, rfl⟩
        simp only [hscan]
        have hsmem : s ∈ store.entries := List.mem_of_find?_eq_some hlk
        have hpred := List.find?_some hlk
        have hskey : s.key = bkey := eq_of_beq ((Bool.and_eq_true _ _).mp hpred).1
        have hsexp : now < s.expiresAt := by
          have := ((Bool.and_eq_true _ _).mp hpred).2
          simpa using this
        by_cases hth : threshold ≤ best
        · rw [if_pos hth, if_neg (by simp [noFaults])]
          refine ⟨⟨fun _ => ?_, fun _ => by simp⟩, ?_, by simp⟩
          · obtain ⟨ie, hief, hiekey⟩ := List.mem_map.mp hkmem
            have hieidx := List.mem_filter.mp hief
            exact ⟨ie, hieidx.1, by simpa using hieidx.2, s, hsmem,
              by rw [hskey, hiekey], hsexp, by rw [← hbest]; exact hth⟩
          · intro h hh
            have hh' : h =
                ({ results := s.entry.results, cache_similarity := best,
                   original_query := s.entry.query,
                   cache_age_seconds := now - s.entry.created_at,
                   access_count := s.entry.access_count + 1 } : Hit) :=
              (Option.some_inj.mp hh).symm
            exact ⟨s, hsmem, hsexp, by rw [← hbest]; exact hth, by rw [hh', hbest],
              by rw [hh'], by rw [hh'], by rw [hh'], by rw [← hskey]⟩
        · rw [if_neg hth]
          refine ⟨⟨fun hcontra => by simp at hcontra, fun hrhs => ?_⟩,
                  fun h hh => by simp at hh, by simp⟩
          have := hrhs_best hrhs
          rw [hscan] at this
          exact absurd this hth
lemma scanFold_skip_faulted (f : Faults) (cos : List ℚ → List ℚ → ℚ) (store : Store)
    (now : ℚ) (qemb : List ℚ) :
    ∀ (keys : List Str) (acc : ℚ × Option (Str × CacheEntry)),
      keys.foldl (scanStep f cos store now qemb) acc =
        (keys.filter (fun k => !(f.entryGet k))).foldl
          (scanStep (unfaulted f) cos store now qemb) acc := by
  intro keys
  induction keys with
  | nil => intro acc; rfl
  | cons k ks ih =>
    intro acc
    rw [List.foldl_cons, List.filter_cons]
    by_cases hf : f.entryGet k
    · have h1 : scanStep f cos store now qemb acc k = acc := by
        unfold scanStep
        rw [if_pos hf]
      rw [h1, ih acc, if_neg (by simp [hf])]
    · have h1 : scanStep f cos store now qemb acc k =
          scanStep (unfaulted f) cos store now qemb acc k := by
        unfold scanStep
        rw [if_neg (by simp [hf]), if_neg (by simp [unfaulted])]
      rw [ih (scanStep f cos store now qemb acc k), h1,
        if_pos (by simp [hf]), List.foldl_cons]

end SemanticCache

-- ===========================================================================
-- C2: semantic cache match policy
-- ===========================================================================

open SemanticCache in
/-- C2: on a failure-free lookup with a present index and duplicate-free
keys, the cache scans the KB's index entries of the requested search type,
computes the similarity of the query embedding against each stored
(unexpired) entry, and returns a hit exactly when some scanned entry reaches
the threshold (equivalently, when the maximum similarity does); on a hit the
matched entry is rewritten with `last_accessed = now` and `access_count`
incremented by one (`refreshStored`), and on a miss the lookup returns
nothing and leaves the store unchanged. -/
theorem C2_semantic_cache_match (cos : List ℚ → List ℚ → ℚ) (threshold ttl : ℚ)
    (store : Store) (now : ℚ) (qemb : List ℚ) (stype : Str)
    (idx : List IndexEntry) (hidx : store.index = some idx)
    (hnodup : (store.entries.map (fun s => s.key)).Nodup) (hthr : 0 < threshold) :
    (((getCachedResult noFaults cos threshold ttl store now qemb stype).1.isSome = true) ↔
      ∃ ie ∈ idx, ie.search_type = stype ∧ ∃ s ∈ store.entries,
        s.key = ie.key ∧ now < s.expiresAt ∧
        threshold ≤ cos qemb s.entry.embedding) ∧
    (∀ h, (getCachedResult noFaults cos threshold ttl store now qemb stype).1 = some h →
      ∃ s ∈ store.entries,
        threshold ≤ cos qemb s.entry.embedding ∧
        h.access_count = s.entry.access_count + 1 ∧
        (getCachedResult noFaults cos threshold ttl store now qemb stype).2.entries =
          store.entries.map (refreshStored now ttl s.key) ∧
        (refreshStored now ttl s.key s).entry.last_accessed = now ∧
        (refreshStored now ttl s.key s).entry.access_count =
          s.entry.access_count + 1) ∧
    ((getCachedResult noFaults cos threshold ttl store now qemb stype).1 = none →
      (getCachedResult noFaults cos threshold ttl store now qemb stype).2 = store) := by
  obtain ⟨ha, hb, hc⟩ :=
    getCachedResult_spec cos threshold ttl store now qemb stype idx hidx hnodup hthr
  refine ⟨ha, ?_, hc⟩
  intro h hh
  obtain ⟨s, hsmem, _, hcos, _, hacc, _, _, hupd⟩ := hb h hh
  exact ⟨s, hsmem, hcos, hacc, hupd, by simp [refreshStored], by simp [refreshStored]⟩

open SemanticCache in
/-- C2 witness: a one-entry store whose entry matches the query (similarity
oracle 1 ≥ 0.95) yields a hit. -/
theorem C2_semantic_cache_match_witness :
    ((getCachedResult noFaults Examples.cosOne (19/20) 3600 Examples.store0 200 [1]
      "text".toList).1.isSome = true) :=
  (C2_semantic_cache_match Examples.cosOne (19/20) 3600 Examples.store0 200 [1]
    "text".toList [Examples.idx0] rfl (by decide) (by norm_num)).1.mpr
    ⟨Examples.idx0, by simp, rfl, Examples.stored0, by simp [Examples.store0], rfl,
      by norm_num [Examples.stored0], by norm_num [Examples.cosOne]⟩

open SemanticCache in
/-- C9: on a failure-free cache hit the matched entry is rewritten with
`setex` carrying the full configured TTL, so its expiry becomes `now + ttl`;
since `created_at < now` on any later hit, the refreshed expiry strictly
exceeds `created_at + ttl` — a repeatedly-hit entry outlives the TTL counted
from its creation. -/
theorem C9_cache_hit_ttl_refresh (cos : List ℚ → List ℚ → ℚ) (threshold ttl : ℚ)
    (store : Store) (now : ℚ) (qemb : List ℚ) (stype : Str)
    (idx : List IndexEntry) (hidx : store.index = some idx)
    (hnodup : (store.entries.map (fun s => s.key)).Nodup) (hthr : 0 < threshold) :
    ∀ h, (getCachedResult noFaults cos threshold ttl store now qemb stype).1 = some h →
      ∃ s ∈ store.entries,
        (getCachedResult noFaults cos threshold ttl store now qemb stype).2.entries =
          store.entries.map (refreshStored now ttl s.key) ∧
        (refreshStored now ttl s.key s).expiresAt = now + ttl ∧
        (s.entry.created_at < now → s.entry.created_at + ttl < now + ttl) := by
  intro h hh
  obtain ⟨s, hsmem, _, _, _, _, _, _, hupd⟩ :=
    (getCachedResult_spec cos threshold ttl store now qemb stype idx hidx hnodup
      hthr).2.1 h hh
  exact ⟨s, hsmem, hupd, by simp [refreshStored],
    fun hlt => add_lt_add_right hlt ttl⟩

open SemanticCache in
/-- C9 witness: the theorem applied to a concrete hit at time 200 on an
entry created at time 100: its expiry becomes 200 + 3600, past the original
100 + 3600. -/
theorem C9_cache_hit_ttl_refresh_witness :
    (getCachedResult noFaults Examples.cosOne (19/20) 3600 Examples.store0 200 [1]
      "text".toList).2.entries =
      Examples.store0.entries.map (refreshStored 200 3600 Examples.stored0.key) ∧
    (refreshStored 200 3600 Examples.stored0.key Examples.stored0).expiresAt =
      200 + 3600 := by
  have hlook : lookupStored Examples.store0 200 ['k'] = some Examples.stored0 :=
    @lookupStored_of_mem Examples.store0 200 (by decide) Examples.stored0
      (by simp [Examples.store0]) (by norm_num [Examples.stored0])
  have hindex : Examples.store0.index = some [Examples.idx0] := rfl
  have hstype : Examples.idx0.search_type = "text".toList := rfl
  have hkey0 : Examples.idx0.key = "k".toList := rfl
  have hentry : Examples.stored0.entry = Examples.entry0 := rfl
  have hca : Examples.entry0.created_at = 100 := rfl
  have hac : Examples.entry0.access_count = 0 := rfl
  have hres : (getCachedResult noFaults Examples.cosOne (19/20) 3600 Examples.store0
      200 [1] "text".toList).1 =
      some { results := Examples.entry0.results, cache_similarity := 1,
             original_query := Examples.entry0.query, cache_age_seconds := 100,
             access_count := 1 } := by
    norm_num [getCachedResult, scanBest, scanStep, noFaults, hlook, hindex,
      hstype, hkey0, hentry, hca, hac, Examples.cosOne, List.foldl_cons,
      List.foldl_nil, List.filter_cons]
  obtain ⟨s, hsmem, hupd, hexp, -⟩ := C9_cache_hit_ttl_refresh Examples.cosOne
    (19/20) 3600 Examples.store0 200 [1] "text".toList [Examples.idx0] rfl
    (by decide) (by norm_num) _ hres
  have hs : s = Examples.stored0 := by
    have : s ∈ [Examples.stored0] := by simpa [Examples.store0] using hsmem
    simpa using this
  rw [hs] at hupd hexp
  exact ⟨hupd, hexp⟩

-- ===========================================================================
-- C10: cache error behaviour
-- ===========================================================================

open SemanticCache in
/-- C10 counterexample: when the index update raises (an internal exception
during a cache write), `cache_result` returns normally but the cache entry
has already been written — the store changed, so "returns without effect" is
false. -/
theorem C10_counterexample_partial_write :
    Examples.faultIndexUpdate.indexUpdate = true ∧
    cacheResult Examples.faultIndexUpdate id 3600 Examples.emptyStore 0
      "kb".toList "q".toList [1] "res".toList "text".toList ≠ Examples.emptyStore ∧
    (cacheResult Examples.faultIndexUpdate id 3600 Examples.emptyStore 0
      "kb".toList "q".toList [1] "res".toList "text".toList).index =
      Examples.emptyStore.index := by
  refine ⟨rfl, ?_, ?_⟩
  · intro h
    have : (cacheResult Examples.faultIndexUpdate id 3600 Examples.emptyStore 0
        "kb".toList "q".toList [1] "res".toList "text".toList).entries = [] := by
      rw [h]
      rfl
    simp [cacheResult, setexStore, updateCacheIndexE, Examples.faultIndexUpdate,
      Examples.emptyStore, noFaults] at this
  · simp [cacheResult, setexStore, updateCacheIndexE, Examples.faultIndexUpdate,
      Examples.emptyStore, noFaults]

open SemanticCache in
/-- C10 (amended): the semantic cache never raises to its caller.  During a
lookup, an index-read failure returns `None` with the store unchanged, and a
per-entry read failure is caught inside the scan loop and merely skips that
key (the scan over the remaining keys proceeds, so a hit is still possible).
During a write, a failure of the entry `setex` leaves the store unchanged,
but a failure inside `_update_cache_index` leaves the freshly written entry
in place with the index unchanged — a partial effect (see the
counterexample). -/
theorem C10_cache_error_behavior (f : Faults) (cos : List ℚ → List ℚ → ℚ)
    (threshold ttl : ℚ) (store : Store) (now : ℚ) (qemb : List ℚ)
    (stype kb query results : Str) (md5 : Str → Str) (keys : List Str)
    (acc : ℚ × Option (Str × CacheEntry)) :
    (f.indexGet = true →
      getCachedResult f cos threshold ttl store now qemb stype = (none, store)) ∧
    (keys.foldl (scanStep f cos store now qemb) acc =
      (keys.filter (fun k => !(f.entryGet k))).foldl
        (scanStep (unfaulted f) cos store now qemb) acc) ∧
    (f.entrySetex = true →
      cacheResult f md5 ttl store now kb query qemb results stype = store) ∧
    (f.entrySetex = false → f.indexUpdate = true →
      cacheResult f md5 ttl store now kb query qemb results stype =
        setexStore store
          { key := cacheKey kb (md5 (query ++ ":".toList ++ stype)),
            expiresAt := now + ttl,
            entry := { query := query, embedding := qemb, results := results,
                       search_type := stype, created_at := now,
                       last_accessed := now, access_count := 0 } } ∧
      (cacheResult f md5 ttl store now kb query qemb results stype).index =
        store.index) := by
  refine ⟨?_, scanFold_skip_faulted f cos store now qemb keys acc, ?_, ?_⟩
  · intro h
    unfold getCachedResult
    rw [if_pos h]
  · intro h
    unfold cacheResult
    rw [if_pos h]
  · intro h1 h2
    have he : cacheResult f md5 ttl store now kb query qemb results stype =
        setexStore store
          { key := cacheKey kb (md5 (query ++ ":".toList ++ stype)),
            expiresAt := now + ttl,
            entry := { query := query, embedding := qemb, results := results,
                       search_type := stype, created_at := now,
                       last_accessed := now, access_count := 0 } } := by
      simp [cacheResult, updateCacheIndexE, h1, h2]
    exact ⟨he, by rw [he]; rfl⟩

open SemanticCache in
/-- C10 witness: the amended theorem applied to a failing entry write (store
unchanged) and to a failing index read (lookup misses, store unchanged). -/
theorem C10_cache_error_behavior_witness :
    cacheResult Examples.faultEntrySetex id 3600 Examples.store0 0 "kb".toList
      "q".toList [1] "res".toList "text".toList = Examples.store0 ∧
    getCachedResult Examples.faultIndexGet Examples.cosOne (19/20) 3600
      Examples.store0 200 [1] "text".toList = (none, Examples.store0) :=
  ⟨(C10_cache_error_behavior Examples.faultEntrySetex Examples.cosOne (19/20) 3600
      Examples.store0 0 [1] "text".toList "kb".toList "q".toList "res".toList id []
      (0, none)).2.2.1 rfl,
   (C10_cache_error_behavior Examples.faultIndexGet Examples.cosOne (19/20) 3600
      Examples.store0 200 [1] "text".toList "kb".toList "q".toList "res".toList id []
      (0, none)).1 rfl⟩

end Aiva
